import Mathlib

/-!
Verification of the SEC EDGAR company-facts normalization pipeline
(`stockrag/data/parse_company_facts.py`).

The Python module is shallowly embedded: JSON documents become an inductive
`Json` type (Python's `json.loads` distinguishes `int` and `float` literals,
so the embedding does too), fact rows become a `FactRow` structure, and each
Python function becomes an executable Lean definition with the same name where
Lean's grammar allows it.  Python 64-bit floats are modelled as exact
rationals; stateful code is modelled by explicit state passing, and code that
can raise returns `Except String` or `Option`.
-/

set_option maxHeartbeats 1000000
set_option synthInstance.maxSize 512
set_option maxRecDepth 4096

/-! ### String comparison primitives

Python compares strings lexicographically by code point.  Lean's built-in
`String` order does not reduce in the kernel, so the code-point lexicographic
comparison is defined here on the underlying character lists. -/

/-- Lexicographic strict comparison of character lists by code point,
matching Python string comparison. -/
def strLtB : List Char → List Char → Bool
  | [], [] => false
  | [], _ :: _ => true
  | _ :: _, [] => false
  | c :: cs, d :: ds =>
    if c.toNat < d.toNat then true
    else if d.toNat < c.toNat then false
    else strLtB cs ds

/-- Python `a < b` on strings. -/
def pyStrLt (a b : String) : Prop := strLtB a.data b.data = true

/-- Python `a <= b` on strings (the order is total, so `a <= b` is `not (b < a)`). -/
def pyStrLe (a b : String) : Prop := strLtB b.data a.data = false

instance (a b : String) : Decidable (pyStrLt a b) := by
  unfold pyStrLt; infer_instance

instance (a b : String) : Decidable (pyStrLe a b) := by
  unfold pyStrLe; infer_instance

theorem strLtB_trans : ∀ {a b c : List Char},
    strLtB a b = true → strLtB b c = true → strLtB a c = true := by
  intro a
  induction a with
  | nil =>
    intro b c hab hbc
    cases b with
    | nil => simp [strLtB] at hab
    | cons y ys =>
      cases c with
      | nil => simp [strLtB] at hbc
      | cons z zs => simp [strLtB]
  | cons x xs ih =>
    intro b c hab hbc
    cases b with
    | nil => simp [strLtB] at hab
    | cons y ys =>
      cases c with
      | nil => simp [strLtB] at hbc
      | cons z zs =>
        simp only [strLtB] at hab hbc ⊢
        rcases Nat.lt_trichotomy x.toNat y.toNat with h1 | h1 | h1
        · rcases Nat.lt_trichotomy y.toNat z.toNat with h2 | h2 | h2
          · simp [Nat.lt_trans h1 h2]
          · simp [h2 ▸ h1]
          · simp [show ¬ y.toNat < z.toNat by omega, h2] at hbc
        · rcases Nat.lt_trichotomy y.toNat z.toNat with h2 | h2 | h2
          · simp [show x.toNat < z.toNat by omega]
          · rw [if_neg (by omega), if_neg (by omega)] at hab
            rw [if_neg (by omega), if_neg (by omega)] at hbc
            rw [if_neg (by omega), if_neg (by omega)]
            exact ih hab hbc
          · simp [show ¬ y.toNat < z.toNat by omega, h2] at hbc
        · simp [show ¬ x.toNat < y.toNat by omega, h1] at hab

theorem strLtB_connex : ∀ {a b : List Char},
    strLtB a b = false → strLtB b a = false → a = b := by
  intro a
  induction a with
  | nil =>
    intro b h1 _
    cases b with
    | nil => rfl
    | cons y ys => simp [strLtB] at h1
  | cons x xs ih =>
    intro b h1 h2
    cases b with
    | nil => simp [strLtB] at h2
    | cons y ys =>
      simp only [strLtB] at h1 h2
      by_cases hxy : x.toNat < y.toNat
      · simp [hxy] at h1
      · by_cases hyx : y.toNat < x.toNat
        · simp [hyx] at h2
        · have hx : x = y := Char.ext (UInt32.ext (show x.toNat = y.toNat by omega))
          subst hx
          rw [if_neg hxy, if_neg hyx] at h1 h2
          rw [ih h1 h2]

/-! ### Constants of the module -/

/-- Form priority for dedup ranking (lower = preferred); Python
`FORM_PRIORITY.get(form, DEFAULT_FORM_PRIORITY)`. -/
def FORM_PRIORITY (form : String) : Int :=
  if form = "10-K" then 0
  else if form = "10-K/A" then 1
  else if form = "20-F" then 2
  else if form = "20-F/A" then 3
  else if form = "10-Q" then 4
  else if form = "10-Q/A" then 5
  else if form = "8-K" then 6
  else if form = "8-K/A" then 7
  else 99

/-- Tier-1 concepts: core financials always indexed for RAG. -/
def TIER1_CONCEPTS : List String :=
  ["EntityCommonStockSharesOutstanding", "EntityPublicFloat",
   "Assets", "AssetsCurrent", "Liabilities", "LiabilitiesCurrent",
   "LiabilitiesAndStockholdersEquity", "StockholdersEquity",
   "RetainedEarningsAccumulatedDeficit",
   "CashAndCashEquivalentsAtCarryingValue", "PropertyPlantAndEquipmentNet",
   "Revenues", "RevenueFromContractWithCustomerExcludingAssessedTax",
   "CostOfRevenue", "CostOfGoodsAndServicesSold", "GrossProfit",
   "OperatingIncomeLoss", "NetIncomeLoss", "IncomeTaxExpenseBenefit",
   "EarningsPerShareBasic", "EarningsPerShareDiluted",
   "NetCashProvidedByUsedInOperatingActivities",
   "NetCashProvidedByUsedInInvestingActivities",
   "NetCashProvidedByUsedInFinancingActivities",
   "WeightedAverageNumberOfSharesOutstandingBasic",
   "WeightedAverageNumberOfSharesOutstandingDiluted",
   "CommonStockSharesOutstanding"]

/-- Required top-level keys of a company facts document. -/
def REQUIRED_TOP_KEYS : List String := ["cik", "entityName", "facts"]

/-- Required fields of a datapoint. -/
def REQUIRED_DATAPOINT_FIELDS : List String :=
  ["end", "val", "accn", "fy", "fp", "form", "filed"]

/-! ### Fact rows

One row of the facts table, as built by `extract_from_file` and then ranked in
place by `dedup_rank_facts`.  Before ranking, `revision_rank` is 0 and
`is_preferred` is `false` (in Python the two keys are simply absent). -/

structure FactRow where
  cik : String
  taxonomy : String
  concept : String
  unit : String
  value : ℚ
  start_date : String
  end_date : String
  fy : Option Int
  fp : String
  form : String
  filed_date : String
  accession_number : String
  frame : String
  period_type : String
  period_key : String
  revision_rank : Nat := 0
  is_preferred : Bool := false
  deriving DecidableEq, Inhabited, Repr

/-- Dedup group key `(taxonomy, concept, unit, start_date, end_date, fy, fp)`. -/
def groupKey (f : FactRow) :
    String × String × String × String × String × Option Int × String :=
  (f.taxonomy, f.concept, f.unit, f.start_date, f.end_date, f.fy, f.fp)

/-! ### The ranker `dedup_rank_facts`

Python sorts each group's index list with
`key=lambda i: (facts[i]["filed_date"], -FORM_PRIORITY.get(...))` and
`reverse=True`: a stable descending sort by the composite key.
`List.insertionSort` with the reflexive relation "my key is greater or equal"
is exactly that stable descending sort. -/

/-- Composite sort key of the fact at index `i`:
`(filed_date, -form_priority)`. -/
def sortKeyOf (facts : List FactRow) (i : Nat) : List Char × Int :=
  ((facts.getD i default).filed_date.data,
   -(FORM_PRIORITY (facts.getD i default).form))

/-- Lexicographic order on composite sort keys (string component first). -/
def sortKeyLe (x y : List Char × Int) : Prop :=
  strLtB x.1 y.1 = true ∨ (x.1 = y.1 ∧ x.2 ≤ y.2)

instance (x y : List Char × Int) : Decidable (sortKeyLe x y) := by
  unfold sortKeyLe; infer_instance

theorem sortKeyLe_refl (x : List Char × Int) : sortKeyLe x x :=
  Or.inr ⟨rfl, le_refl _⟩

theorem sortKeyLe_trans {x y z : List Char × Int} (h1 : sortKeyLe x y)
    (h2 : sortKeyLe y z) : sortKeyLe x z := by
  rcases h1 with h1 | ⟨h1, h1'⟩
  · rcases h2 with h2 | ⟨h2, _⟩
    · exact Or.inl (strLtB_trans h1 h2)
    · exact Or.inl (h2 ▸ h1)
  · rcases h2 with h2 | ⟨h2, h2'⟩
    · exact Or.inl (h1 ▸ h2)
    · exact Or.inr ⟨h1.trans h2, le_trans h1' h2'⟩

theorem sortKeyLe_total (x y : List Char × Int) :
    sortKeyLe x y ∨ sortKeyLe y x := by
  cases hxy : strLtB x.1 y.1
  · cases hyx : strLtB y.1 x.1
    · have h := strLtB_connex hxy hyx
      rcases le_total x.2 y.2 with h2 | h2
      · exact Or.inl (Or.inr ⟨h, h2⟩)
      · exact Or.inr (Or.inr ⟨h.symm, h2⟩)
    · exact Or.inr (Or.inl hyx)
  · exact Or.inl (Or.inl hxy)

/-- Ordering relation used for the per-group descending sort: `i` may come
before `j` iff the key of `i` is at least the key of `j`. -/
def rankRel (facts : List FactRow) (i j : Nat) : Prop :=
  sortKeyLe (sortKeyOf facts j) (sortKeyOf facts i)

instance (facts : List FactRow) : DecidableRel (rankRel facts) := by
  unfold rankRel; infer_instance

instance (facts : List FactRow) : IsTotal Nat (rankRel facts) :=
  ⟨fun i j => sortKeyLe_total (sortKeyOf facts j) (sortKeyOf facts i)⟩

instance (facts : List FactRow) : IsTrans Nat (rankRel facts) :=
  ⟨fun _ _ _ h1 h2 => sortKeyLe_trans h2 h1⟩

instance (facts : List FactRow) : IsRefl Nat (rankRel facts) :=
  ⟨fun _ => sortKeyLe_refl _⟩

/-- The indices of the facts belonging to group `k`, in input order (Python
builds them by `groups.setdefault(key, []).append(idx)`). -/
def groupIdx (facts : List FactRow)
    (k : String × String × String × String × String × Option Int × String) :
    List Nat :=
  (List.range facts.length).filter fun j =>
    decide (groupKey (facts.getD j default) = k)

/-- The group of index `i`, sorted best-first: latest `filed_date` first, then
lower form-priority number, ties kept in input order (Python
`indices.sort(key=..., reverse=True)` is stable). -/
def sortedGroup (facts : List FactRow)
    (k : String × String × String × String × String × Option Int × String) :
    List Nat :=
  List.insertionSort (rankRel facts) (groupIdx facts k)

/-- 1-based rank of the fact at index `i` inside its sorted group. -/
def rankOfIdx (facts : List FactRow) (i : Nat) : Nat :=
  (sortedGroup facts (groupKey (facts.getD i default))).indexOf i + 1

/-- The fact at index `i` with its rank assignment written in (the body of the
Python loop `for rank, i in enumerate(indices, 1)`). -/
def rankedRow (facts : List FactRow) (i : Nat) : FactRow :=
  { facts.getD i default with
    revision_rank := rankOfIdx facts i
    is_preferred := rankOfIdx facts i == 1 }

@[simp] theorem rankedRow_groupKey (facts : List FactRow) (i : Nat) :
    groupKey (rankedRow facts i) = groupKey (facts.getD i default) := rfl

@[simp] theorem rankedRow_filed_date (facts : List FactRow) (i : Nat) :
    (rankedRow facts i).filed_date = (facts.getD i default).filed_date := rfl

@[simp] theorem rankedRow_form (facts : List FactRow) (i : Nat) :
    (rankedRow facts i).form = (facts.getD i default).form := rfl

@[simp] theorem rankedRow_revision_rank (facts : List FactRow) (i : Nat) :
    (rankedRow facts i).revision_rank = rankOfIdx facts i := rfl

@[simp] theorem rankedRow_is_preferred (facts : List FactRow) (i : Nat) :
    (rankedRow facts i).is_preferred = (rankOfIdx facts i == 1) := rfl

/-- Python `dedup_rank_facts`: ranks duplicate datapoints within a single
company's facts, assigning `revision_rank` (1 = best) and
`is_preferred` (= rank 1), and returning the facts in input order. -/
def dedup_rank_facts (facts : List FactRow) : List FactRow :=
  (List.range facts.length).map (rankedRow facts)

/-! ### Ranker lemmas -/

theorem strLtB_irrefl (a : List Char) : strLtB a a = false := by
  induction a with
  | nil => rfl
  | cons c cs ih => simp [strLtB, ih]

theorem strLtB_asymm {a b : List Char} (h : strLtB a b = true) :
    strLtB b a = false := by
  cases hba : strLtB b a
  · rfl
  · have := strLtB_trans h hba
    rw [strLtB_irrefl] at this
    exact absurd this (by simp)

/-- Shape of the rows returned by `dedup_rank_facts`. -/
theorem mem_dedup_rank_facts {facts : List FactRow} {f : FactRow}
    (hf : f ∈ dedup_rank_facts facts) :
    ∃ i, i < facts.length ∧ f = rankedRow facts i := by
  unfold dedup_rank_facts at hf
  obtain ⟨i, hi, rfl⟩ := List.mem_map.mp hf
  exact ⟨i, List.mem_range.mp hi, rfl⟩

theorem mem_groupIdx {facts : List FactRow} {i : Nat} (hi : i < facts.length) :
    i ∈ groupIdx facts (groupKey (facts.getD i default)) := by
  unfold groupIdx
  exact List.mem_filter.mpr ⟨List.mem_range.mpr hi, by simp⟩

theorem mem_groupIdx_iff {facts : List FactRow} {j : Nat} {k} :
    j ∈ groupIdx facts k ↔
      j < facts.length ∧ groupKey (facts.getD j default) = k := by
  unfold groupIdx
  rw [List.mem_filter, List.mem_range]
  simp

theorem nodup_sortedGroup (facts : List FactRow) (k) :
    (sortedGroup facts k).Nodup :=
  (List.perm_insertionSort _ _).symm.nodup
    ((List.nodup_range _).filter _)

theorem mem_sortedGroup_iff {facts : List FactRow} {j : Nat} {k} :
    j ∈ sortedGroup facts k ↔ j ∈ groupIdx facts k :=
  (List.perm_insertionSort _ _).mem_iff

/-- An index with rank 1 heads its sorted group and therefore its sort key
dominates the keys of all group members. -/
theorem rank_one_key_max {facts : List FactRow} {i j : Nat}
    (hi : i < facts.length) (hj : j < facts.length)
    (hkey : groupKey (facts.getD j default) = groupKey (facts.getD i default))
    (hrank : rankOfIdx facts i = 1) :
    sortKeyLe (sortKeyOf facts j) (sortKeyOf facts i) := by
  have hmem : i ∈ sortedGroup facts (groupKey (facts.getD i default)) :=
    mem_sortedGroup_iff.mpr (mem_groupIdx hi)
  have hjmem : j ∈ sortedGroup facts (groupKey (facts.getD i default)) :=
    mem_sortedGroup_iff.mpr (mem_groupIdx_iff.mpr ⟨hj, hkey⟩)
  have hidx :
      (sortedGroup facts (groupKey (facts.getD i default))).indexOf i = 0 := by
    unfold rankOfIdx at hrank
    omega
  have hsorted : List.Sorted (rankRel facts)
      (sortedGroup facts (groupKey (facts.getD i default))) :=
    List.sorted_insertionSort _ _
  cases hsg : sortedGroup facts (groupKey (facts.getD i default)) with
  | nil => rw [hsg] at hmem; exact absurd hmem (List.not_mem_nil i)
  | cons b t =>
    rw [hsg] at hidx hjmem hsorted
    have hib : i = b := by
      by_contra hne
      rw [List.indexOf_cons_ne _ (fun h => hne h.symm)] at hidx
      omega
    subst hib
    rcases List.mem_cons.mp hjmem with hji | hjt
    · subst hji; exact sortKeyLe_refl _
    · exact List.rel_of_sorted_cons hsorted j hjt

/-- Lemma for C2: mapping a duplicate-free list through its own `indexOf`
enumerates `0, 1, ..., n-1`. -/
theorem map_indexOf_self {α : Type} [DecidableEq α] :
    ∀ (l : List α), l.Nodup → l.map (fun a => l.indexOf a) = List.range l.length := by
  intro l
  induction l with
  | nil => intro _; rfl
  | cons x t ih =>
    intro hnd
    rw [List.nodup_cons] at hnd
    have hmap : t.map (fun a => (x :: t).indexOf a) =
        t.map (fun a => Nat.succ (t.indexOf a)) := by
      apply List.map_congr_left
      intro a ha
      rw [List.indexOf_cons_ne _ (fun h => hnd.1 (by rw [h]; exact ha))]
    simp only [List.map_cons, List.indexOf_cons_self, List.length_cons,
      List.range_succ_eq_map, hmap]
    have hcomp : t.map (fun a => Nat.succ (t.indexOf a))
        = (t.map fun a => t.indexOf a).map Nat.succ := by
      rw [List.map_map]; rfl
    rw [hcomp, ih hnd.2]

/-! ### Claim C1: the preferred row maximizes filed date, then form priority -/

/-- **C1.** For every list of fact rows of one company and every duplicate
group keyed by `(taxonomy, concept, unit, start_date, end_date, fy, fp)`,
`dedup_rank_facts` assigns rank 1 (`is_preferred = true`) to a row with the
maximum `filed_date` in the group, and when two rows in the group have equal
`filed_date`, to the row whose form has the lower form-priority number
(e.g. form 10-K, priority 0, is preferred over form 8-K, priority 6, when
filed on the same date). -/
theorem claim_C1_dedup_preferred_latest_then_lowest_priority
    (facts : List FactRow) (f : FactRow)
    (hf : f ∈ dedup_rank_facts facts) (hpref : f.is_preferred = true)
    (g : FactRow) (hg : g ∈ dedup_rank_facts facts)
    (hkey : groupKey g = groupKey f) :
    pyStrLe g.filed_date f.filed_date ∧
      (g.filed_date = f.filed_date →
        FORM_PRIORITY f.form ≤ FORM_PRIORITY g.form) := by
  obtain ⟨i, hi, rfl⟩ := mem_dedup_rank_facts hf
  obtain ⟨j, hj, rfl⟩ := mem_dedup_rank_facts hg
  simp only [rankedRow_groupKey] at hkey
  simp only [rankedRow_is_preferred, beq_iff_eq] at hpref
  have hkmax := rank_one_key_max hi hj hkey hpref
  simp only [rankedRow_filed_date, rankedRow_form]
  rcases hkmax with hlt | ⟨heq, hle⟩
  · constructor
    · exact strLtB_asymm hlt
    · intro hfe
      have hdata : (facts.getD j default).filed_date.data
          = (facts.getD i default).filed_date.data :=
        congrArg String.data hfe
      have hlt' : strLtB (facts.getD j default).filed_date.data
          (facts.getD i default).filed_date.data = true := hlt
      rw [hdata, strLtB_irrefl] at hlt'
      exact absurd hlt' (by simp)
  · have heq' : (facts.getD j default).filed_date.data
        = (facts.getD i default).filed_date.data := heq
    constructor
    · show strLtB (facts.getD i default).filed_date.data
        (facts.getD j default).filed_date.data = false
      rw [heq', strLtB_irrefl]
    · intro _
      have hle' : -(FORM_PRIORITY (facts.getD j default).form)
          ≤ -(FORM_PRIORITY (facts.getD i default).form) := hle
      omega

/-- Example fact row for the C1 witness (the spec's tie-break scenario). -/
def c1Fact (form : String) : FactRow :=
  { cik := "0000320193", taxonomy := "us-gaap", concept := "Assets",
    unit := "USD", value := (352755000000 : ℚ), start_date := "",
    end_date := "2022-09-24", fy := some 2022, fp := "FY", form := form,
    filed_date := "2023-03-01", accession_number := "A1", frame := "",
    period_type := "instant", period_key := "2022-FY" }

/-- Example company for the C1 witness: an 8-K fact and a 10-K fact filed on
the same date with the same group key. -/
def c1Facts : List FactRow := [c1Fact "8-K", c1Fact "10-K"]

/-- Witness for C1: in the tie-break scenario the 10-K row (index 1) is
preferred; its filed date is maximal and its priority (0) is at most the
8-K's (6). -/
theorem claim_C1_witness :
    pyStrLe (rankedRow c1Facts 0).filed_date (rankedRow c1Facts 1).filed_date ∧
      ((rankedRow c1Facts 0).filed_date = (rankedRow c1Facts 1).filed_date →
        FORM_PRIORITY (rankedRow c1Facts 1).form
          ≤ FORM_PRIORITY (rankedRow c1Facts 0).form) :=
  claim_C1_dedup_preferred_latest_then_lowest_priority
    c1Facts (rankedRow c1Facts 1) (by decide) (by decide)
    (rankedRow c1Facts 0) (by decide) (by decide)

/-! ### Claim C2: ranks are 1..N, exactly one preferred row per group -/

/-- The rows of a dedup group are exactly the ranked rows of its indices. -/
theorem dedup_group_eq (facts : List FactRow)
    (k : String × String × String × String × String × Option Int × String) :
    (dedup_rank_facts facts).filter (fun f => decide (groupKey f = k))
      = (groupIdx facts k).map (rankedRow facts) := by
  unfold dedup_rank_facts groupIdx
  rw [List.filter_map]
  rfl

/-- The multiset of ranks of a dedup group is `1..N`. -/
theorem dedup_group_ranks_perm (facts : List FactRow)
    (k : String × String × String × String × String × Option Int × String) :
    (((groupIdx facts k).map (rankedRow facts)).map
        (fun f => f.revision_rank)).Perm
      (List.range' 1 (groupIdx facts k).length) := by
  have hnd : (sortedGroup facts k).Nodup := nodup_sortedGroup facts k
  have hperm : (groupIdx facts k).Perm (sortedGroup facts k) :=
    (List.perm_insertionSort _ _).symm
  have hmapranks :
      ((groupIdx facts k).map (rankedRow facts)).map (fun f => f.revision_rank)
        = (groupIdx facts k).map
            (fun j => (sortedGroup facts k).indexOf j + 1) := by
    rw [List.map_map]
    apply List.map_congr_left
    intro j hj
    show (rankedRow facts j).revision_rank = _
    rw [rankedRow_revision_rank]
    unfold rankOfIdx
    rw [(mem_groupIdx_iff.mp hj).2]
  have h2 : (sortedGroup facts k).map
      (fun j => (sortedGroup facts k).indexOf j + 1)
        = List.range' 1 (sortedGroup facts k).length := by
    have hm : (sortedGroup facts k).map
        (fun j => (sortedGroup facts k).indexOf j + 1)
          = ((sortedGroup facts k).map
              (fun j => (sortedGroup facts k).indexOf j)).map
                (fun m => m + 1) := by
      rw [List.map_map]; rfl
    rw [hm, map_indexOf_self _ hnd, List.range'_eq_map_range]
    apply List.map_congr_left
    intro a _
    omega
  have h1 := hperm.map (fun j => (sortedGroup facts k).indexOf j + 1)
  rw [h2] at h1
  rw [hmapranks, hperm.length_eq]
  exact h1

/-- **C2.** After `dedup_rank_facts`, within every group keyed by
`(taxonomy, concept, unit, start_date, end_date, fy, fp)` of size N the
assigned `revision_rank` values are exactly `1..N` without gaps or repeats,
exactly one row has `is_preferred = true`, and for every row
`is_preferred = true` holds iff `revision_rank = 1`. -/
theorem claim_C2_dedup_rank_invariants (facts : List FactRow)
    (k : String × String × String × String × String × Option Int × String) :
    (((dedup_rank_facts facts).filter
        (fun f => decide (groupKey f = k))).map
          (fun f => f.revision_rank)).Perm
      (List.range' 1 ((dedup_rank_facts facts).filter
        (fun f => decide (groupKey f = k))).length) ∧
    ((dedup_rank_facts facts).filter (fun f => decide (groupKey f = k)) ≠ [] →
      ((dedup_rank_facts facts).filter
        (fun f => decide (groupKey f = k))).countP
          (fun f => f.is_preferred) = 1) ∧
    (∀ f ∈ dedup_rank_facts facts,
      f.is_preferred = true ↔ f.revision_rank = 1) := by
  refine ⟨?_, ?_, ?_⟩
  · rw [dedup_group_eq, List.length_map]
    exact dedup_group_ranks_perm facts k
  · intro hne
    rw [dedup_group_eq] at hne ⊢
    have hcongr : ((groupIdx facts k).map (rankedRow facts)).countP
        (fun f => f.is_preferred)
        = ((groupIdx facts k).map (rankedRow facts)).countP
            (fun f => f.revision_rank == 1) := by
      apply List.countP_congr
      intro f hfm
      obtain ⟨j, _, rfl⟩ := List.mem_map.mp hfm
      exact Iff.rfl
    have hcnt : ((groupIdx facts k).map (rankedRow facts)).countP
        (fun f => f.revision_rank == 1)
        = (((groupIdx facts k).map (rankedRow facts)).map
            (fun f => f.revision_rank)).count 1 := by
      simp only [List.count_eq_countP, List.countP_map]
      rfl
    rw [hcongr, hcnt, (dedup_group_ranks_perm facts k).count_eq]
    have hlen : 0 < (groupIdx facts k).length := by
      rcases hl : groupIdx facts k with _ | ⟨a, t⟩
      · rw [hl] at hne; simp at hne
      · simp [hl]
    have hmem : 1 ∈ List.range' 1 (groupIdx facts k).length := by
      rw [List.mem_range']
      exact ⟨0, hlen, by omega⟩
    have hle := List.nodup_iff_count_le_one.mp
      (List.nodup_range' 1 (groupIdx facts k).length) 1
    have hpos := List.count_pos_iff.mpr hmem
    omega
  · intro f hf
    obtain ⟨i, _, rfl⟩ := mem_dedup_rank_facts hf
    simp [rankedRow_is_preferred, rankedRow_revision_rank, beq_iff_eq]

/-- Example fact row for the C2 witness (the spec's strict-parse scenario:
original 10-K filing and a later 10-K/A amendment). -/
def c2Fact (form filed : String) : FactRow :=
  { cik := "0000320193", taxonomy := "us-gaap", concept := "Assets",
    unit := "USD", value := (352755000000 : ℚ), start_date := "",
    end_date := "2022-09-24", fy := some 2022, fp := "FY", form := form,
    filed_date := filed, accession_number := "A1", frame := "",
    period_type := "instant", period_key := "2022-FY" }

/-- Example company for the C2 witness. -/
def c2Facts : List FactRow :=
  [c2Fact "10-K" "2022-10-28", c2Fact "10-K/A" "2023-01-15"]

/-- Witness for C2: the two-revision group has exactly one preferred row. -/
theorem claim_C2_witness :
    ((dedup_rank_facts c2Facts).filter
        (fun f => decide (groupKey f
          = groupKey (c2Fact "10-K" "2022-10-28")))).countP
      (fun f => f.is_preferred) = 1 :=
  (claim_C2_dedup_rank_invariants c2Facts
    (groupKey (c2Fact "10-K" "2022-10-28"))).2.1 (by decide)

/-! ### Claim C10: the ranker only writes the two ranking fields -/

theorem map_getD_range {α : Type} (l : List α) (d : α) :
    (List.range l.length).map (fun i => l.getD i d) = l := by
  induction l with
  | nil => rfl
  | cons x t ih =>
    rw [List.length_cons, List.range_succ_eq_map, List.map_cons, List.map_map]
    rw [show ((fun i => (x :: t).getD i d) ∘ Nat.succ)
        = (fun i => t.getD i d) from rfl]
    rw [ih]
    rfl

/-- A fact row with its two ranking fields reset; two rows agree under
`eraseRanking` iff they agree on every field other than `revision_rank` and
`is_preferred`. -/
def eraseRanking (f : FactRow) : FactRow :=
  { f with revision_rank := 0, is_preferred := false }

/-- **C10.** `dedup_rank_facts` returns the same fact rows in their original
input order (it never reorders the facts list), and for every fact the only
fields it changes are `revision_rank` and `is_preferred`; all other fields of
every fact are unchanged. -/
theorem claim_C10_dedup_preserves_order_and_other_fields
    (facts : List FactRow) :
    (dedup_rank_facts facts).map eraseRanking = facts.map eraseRanking := by
  unfold dedup_rank_facts
  rw [List.map_map]
  rw [show (eraseRanking ∘ rankedRow facts)
      = (eraseRanking ∘ fun i => facts.getD i default) from rfl]
  rw [← List.map_map, map_getD_range]

/-! ### JSON values

Python's `json.loads` produces `dict` / `list` / `str` / `int` / `float` /
`bool` / `None`.  Integer literals become Python `int` (`pyint`), all other
numeric literals become Python `float` (`pynum`), modelled as an exact
rational.  Objects keep insertion order, as Python dicts do; a duplicate key
replaces the value at the original position, as `dict.__setitem__` does. -/

inductive Json where
  | null : Json
  | bool (b : Bool) : Json
  | pyint (n : Int) : Json
  | pynum (q : ℚ) : Json
  | str (s : String) : Json
  | arr (elems : List Json) : Json
  | obj (entries : List (String × Json)) : Json
  deriving Inhabited

/-- Python `d[k]` on an ordered dict represented as an association list. -/
def lookupKey (kvs : List (String × Json)) (k : String) : Option Json :=
  match kvs with
  | [] => none
  | (k', v) :: rest => if k' = k then some v else lookupKey rest k

/-- Python `d[k] = v` on an ordered dict: replace in place if the key exists,
else append. -/
def insertKey (kvs : List (String × Json)) (k : String) (v : Json) :
    List (String × Json) :=
  match kvs with
  | [] => [(k, v)]
  | (k', v') :: rest =>
    if k' = k then (k', v) :: rest else (k', v') :: insertKey rest k v

/-- Python truthiness of a JSON value (`if x:`): `None`, `False`, `0`, `0.0`,
`""`, `[]` and the empty dict are falsy. -/
def truthy : Json → Bool
  | .null => false
  | .bool b => b
  | .pyint n => n != 0
  | .pynum q => q != 0
  | .str s => s != ""
  | .arr l => !l.isEmpty
  | .obj l => !l.isEmpty

/-- Python `str(n)` for an `int`. -/
def pyIntStr (n : Int) : String :=
  if n < 0 then "-" ++ toString n.natAbs else toString n.natAbs

/-- Python `str` / f-string interpolation of a JSON scalar.  The pipeline only
ever formats `None`, booleans, ints and strings here (`fy`, `fp` and the
already-validated integer `cik`); floats and containers are rendered with a
placeholder since Python's `repr` of those never reaches an output table. -/
def pyFormat : Json → String
  | .null => "None"
  | .bool b => if b then "True" else "False"
  | .pyint n => pyIntStr n
  | .pynum _ => "<float>"
  | .str s => s
  | .arr _ => "<list>"
  | .obj _ => "<dict>"

/-- Python `str.zfill`: left-pad with zeros to the given width, keeping a
leading sign in front of the padding. -/
def zfill (s : String) (width : Nat) : String :=
  if width ≤ s.data.length then s
  else
    match s.data with
    | '-' :: rest =>
      String.mk ('-' :: (List.replicate (width - s.data.length) '0' ++ rest))
    | other =>
      String.mk (List.replicate (width - s.data.length) '0' ++ other)

/-! ### Python `float()` coercion

`float(x)` accepts ints, floats, booleans and numeric strings; anything else
(including `None`, lists and dicts) raises `TypeError`/`ValueError`.  The
model returns the exact rational value; the non-finite spellings `inf` and
`nan` that Python would also accept fall outside the rational model and are
treated as failures. -/

/-- Decimal digits to a natural number. -/
def digitsToNat (ds : List Char) : Nat :=
  ds.foldl (fun a c => a * 10 + (c.toNat - 48)) 0

/-- Powers of ten as integers. -/
def pow10 : Nat → Int
  | 0 => 1
  | k + 1 => 10 * pow10 k

/-- Assemble a rational from sign, integer digits, fraction digits and a
decimal exponent. -/
def decimalToRat (neg : Bool) (ip fp : List Char) (ex : Int) : ℚ :=
  let mant : Int := (digitsToNat ip : Int) * pow10 fp.length + (digitsToNat fp : Int)
  let signed : Int := if neg then -mant else mant
  let scale : Int := ex - (fp.length : Int)
  if 0 ≤ scale then Rat.divInt (signed * pow10 scale.toNat) 1
  else Rat.divInt signed (pow10 (-scale).toNat)

/-- Python whitespace characters stripped by `float(str)`. -/
def isPySpace (c : Char) : Bool :=
  c = ' ' || c = '\t' || c = '\n' || c = '\r' || c = '\x0b' || c = '\x0c'

/-- Parse an optional exponent part `e±ddd`; returns the exponent and the
rest, or `none` if an `e` is present but malformed. -/
def parseExponent (cs : List Char) : Option (Int × List Char) :=
  match cs with
  | c :: t =>
    if c = 'e' || c = 'E' then
      let (esgn, t2) : Int × List Char :=
        match t with
        | '+' :: u => (1, u)
        | '-' :: u => (-1, u)
        | _ => (1, t)
      let ds := t2.takeWhile Char.isDigit
      let rest := t2.dropWhile Char.isDigit
      if ds.isEmpty then none else some (esgn * (digitsToNat ds : Int), rest)
    else some (0, cs)
  | [] => some (0, [])

/-- Python `float(s)` on a string: optional surrounding whitespace, optional
sign, decimal digits with optional fraction and exponent.  (`inf`/`nan`
spellings are outside the rational model and rejected.) -/
def parseFloatText (s : String) : Option ℚ :=
  let cs := s.data.dropWhile isPySpace
  let cs := (cs.reverse.dropWhile isPySpace).reverse
  let (neg, cs1) : Bool × List Char :=
    match cs with
    | '-' :: t => (true, t)
    | '+' :: t => (false, t)
    | _ => (false, cs)
  let ip := cs1.takeWhile Char.isDigit
  let r1 := cs1.dropWhile Char.isDigit
  let (fp, r2) : List Char × List Char :=
    match r1 with
    | '.' :: t => (t.takeWhile Char.isDigit, t.dropWhile Char.isDigit)
    | _ => ([], r1)
  if ip.isEmpty && fp.isEmpty then none
  else
    match parseExponent r2 with
    | none => none
    | some (ex, rest) =>
      if rest.isEmpty then some (decimalToRat neg ip fp ex) else none

/-! ### The full Python float model

Python `float()` does not guarantee a finite result: the spellings
`inf`/`infinity`/`nan` (any case, optional sign, surrounding whitespace) are
accepted and yield non-finite doubles, and a decimal literal whose value
rounds beyond the largest finite double overflows to `±inf` rather than
raising.  Conversely, `float(n)` on an `int` whose magnitude would round to
`2^1024` raises `OverflowError` — an exception the extractor's
`except (ValueError, TypeError)` clause does *not* catch, so it is still a
hard per-file error.  `PyFloat` models the full codomain; the finite values
are kept as exact rationals (the mantissa rounding of a finite double is not
modelled; the finite/non-finite classification uses the exact IEEE-754
binary64 overflow threshold). -/

/-- A Python float: a finite double (kept as an exact rational) or one of
the non-finite values `inf`, `-inf`, `nan`. -/
inductive PyFloat where
  | finite (q : ℚ)
  | inf
  | neginf
  | nan
  deriving DecidableEq, Inhabited, Repr

/-- Whether a Python float is finite (`math.isfinite`). -/
def PyFloat.isFinite : PyFloat → Bool
  | .finite _ => true
  | _ => false

/-- The exact real threshold at which rounding-to-nearest-even produces
`2^1024` and a binary64 conversion overflows: the midpoint between the
largest finite double `(2^53 - 1) * 2^971` and `2^1024`. -/
def FLOAT_OVERFLOW_BOUND : Int := 2 ^ 1024 - 2 ^ 970

/-- Classify the exact value of a decimal literal as a Python float:
magnitudes at or beyond the overflow threshold become `±inf` (Python string
conversion never raises `OverflowError`), everything else stays finite. -/
def pyFloatOfRat (q : ℚ) : PyFloat :=
  if FLOAT_OVERFLOW_BOUND * (q.den : Int) ≤ q.num then PyFloat.inf
  else if q.num ≤ -(FLOAT_OVERFLOW_BOUND * (q.den : Int)) then PyFloat.neginf
  else PyFloat.finite q

/-- ASCII lower-casing, as Python applies to the `inf`/`nan` spellings. -/
def lowerCh (c : Char) : Char :=
  if 'A' ≤ c && c ≤ 'Z' then Char.ofNat (c.toNat + 32) else c

/-- Python `float(s)` on a string, full model: after stripping whitespace
and an optional sign, the case-insensitive spellings `inf`, `infinity` and
`nan` are accepted as non-finite values; otherwise the decimal grammar of
`parseFloatText` applies, with overflow to `±inf`. -/
def parseFloatTextFull (s : String) : Option PyFloat :=
  let cs := s.data.dropWhile isPySpace
  let cs := (cs.reverse.dropWhile isPySpace).reverse
  let (neg, cs1) : Bool × List Char :=
    match cs with
    | '-' :: t => (true, t)
    | '+' :: t => (false, t)
    | _ => (false, cs)
  let low := cs1.map lowerCh
  if low = "inf".data || low = "infinity".data then
    some (if neg then PyFloat.neginf else PyFloat.inf)
  else if low = "nan".data then some PyFloat.nan
  else
    match parseFloatText s with
    | none => none
    | some q => some (pyFloatOfRat q)

/-- Python `float(x)` on a JSON value, full model (`bool` is an `int`
subclass, so `float(True) = 1.0`).  `none` means `float` raises: a
`ValueError`/`TypeError` for non-numeric input, or an `OverflowError` for an
`int` whose magnitude rounds beyond the largest finite double.  A `pynum`
is a number literal with a fraction or exponent, which Python's JSON parser
already converts through the float grammar, hence the overflow-to-infinity
classification. -/
def pyFloatFull : Json → Option PyFloat
  | .pyint n =>
    if FLOAT_OVERFLOW_BOUND ≤ n ∨ n ≤ -FLOAT_OVERFLOW_BOUND then none
    else some (PyFloat.finite (Rat.divInt n 1))
  | .pynum q => some (pyFloatOfRat q)
  | .bool b => some (PyFloat.finite (if b then 1 else 0))
  | .str s => parseFloatTextFull s
  | _ => none

/-- Python `float(x)` on a JSON value, restricted to the finite fragment:
`some q` exactly when the full model yields a finite value.  The fact rows
below carry exact rationals, so the extractor is exact on this fragment;
on inputs outside it Python either raises (modelled faithfully as an
error) or emits a non-finite row, which a rational-valued row cannot carry
— the counterexample development below exhibits that divergence. -/
def pyFloat (j : Json) : Option ℚ :=
  match pyFloatFull j with
  | some (PyFloat.finite q) => some q
  | _ => none

/-! ### Derived period fields -/

/-- Python `compute_period_type`: `"duration"` if `start_date` is truthy
(non-empty), else `"instant"`. -/
def compute_period_type (start_date : String) : String :=
  if start_date = "" then "instant" else "duration"

/-- Python `compute_period_key(fy, fp, start_date, end_date)`.  The call site
passes the raw datapoint values `dp["fy"]` and `dp["fp"]`, so the first test
is Python truthiness of those JSON values (`if fy and fp:`), and the f-string
`f"{fy}-{fp}"` formats them. -/
def compute_period_key (fy fp : Json) (start_date end_date : String) :
    String :=
  if truthy fy && truthy fp then pyFormat fy ++ "-" ++ pyFormat fp
  else if start_date = "" then end_date
  else start_date ++ ":" ++ end_date

/-! ### Claim C5: the period-key fallback chain

The claim says the `"{fy}-{fp}"` arm is taken whenever both `fy` and `fp` are
present.  The code tests Python *truthiness* instead, so a present but zero
`fy` (or a present but empty `fp`) falls through to the date arms. -/

/-- **C5 (counterexample).** For the datapoint values `fy = 0` (present) and
`fp = "FY"` with no start date, the claim as stated demands
`period_key = "0-FY"`, but `compute_period_key` returns the end date because
`0` is falsy in Python. -/
theorem claim_C5_counterexample :
    compute_period_key (Json.pyint 0) (Json.str "FY") "" "2021-12-31"
        = "2021-12-31" ∧
      compute_period_key (Json.pyint 0) (Json.str "FY") "" "2021-12-31"
        ≠ "0-FY" := by
  constructor
  · rfl
  · decide

/-- **C5 (amended).** The derived `period_key` equals `"{fy}-{fp}"` when both
`fy` and `fp` are *truthy* (present, and non-zero resp. non-empty);
otherwise `"{start_date}:{end_date}"` when `start_date` is non-empty;
otherwise `end_date`. -/
theorem claim_C5_period_key_amended (fy fp : Json)
    (start_date end_date : String) :
    (truthy fy = true → truthy fp = true →
      compute_period_key fy fp start_date end_date
        = pyFormat fy ++ "-" ++ pyFormat fp) ∧
    (¬(truthy fy = true ∧ truthy fp = true) → start_date ≠ "" →
      compute_period_key fy fp start_date end_date
        = start_date ++ ":" ++ end_date) ∧
    (¬(truthy fy = true ∧ truthy fp = true) → start_date = "" →
      compute_period_key fy fp start_date end_date = end_date) := by
  refine ⟨?_, ?_, ?_⟩
  · intro hfy hfp
    unfold compute_period_key
    rw [hfy, hfp]
    rfl
  · intro hnot hs
    have hfalse : (truthy fy && truthy fp) = false := by
      rw [← Bool.not_eq_true, Bool.and_eq_true]
      exact hnot
    unfold compute_period_key
    rw [hfalse, if_neg (by simp), if_neg hs]
  · intro hnot hs
    have hfalse : (truthy fy && truthy fp) = false := by
      rw [← Bool.not_eq_true, Bool.and_eq_true]
      exact hnot
    unfold compute_period_key
    rw [hfalse, if_neg (by simp), if_pos hs]

/-- Witness for C5 (amended): the claim's own example — `fy = null`,
`fp = ""`, `start = "2021-01-01"`, `end = "2021-12-31"` — yields the date
range key. -/
theorem claim_C5_witness :
    compute_period_key Json.null (Json.str "") "2021-01-01" "2021-12-31"
      = "2021-01-01:2021-12-31" :=
  (claim_C5_period_key_amended Json.null (Json.str "")
    "2021-01-01" "2021-12-31").2.1 (by decide) (by decide)

/-! ### Strict JSON parsing (`json.loads`)

The repair routine re-parses its sealed prefix strictly, and the driver
first attempts a strict parse of every file, so the embedding carries an
executable strict JSON reader: a single-pass tokenizer and a stack-machine
reader, both fuel-indexed so that the kernel can evaluate them.  Python's
non-standard acceptance of `Infinity`/`NaN` literals falls outside the
rational value model and is treated as a parse failure. -/

inductive JTok where
  | lbrace | rbrace | lbrack | rbrack | comma | colon
  | tstr (s : String)
  | tint (n : Int)
  | tnum (q : ℚ)
  | ttrue | tfalse | tnull
  deriving Inhabited

/-- JSON whitespace (the only whitespace `json.loads` accepts). -/
def jsonWs (c : Char) : Bool :=
  c = ' ' || c = '\t' || c = '\n' || c = '\r'

/-- Hexadecimal digit test. -/
def isHexDig (c : Char) : Bool :=
  c.isDigit || ('a' ≤ c && c ≤ 'f') || ('A' ≤ c && c ≤ 'F')

/-- Hexadecimal digit value. -/
def hexVal (c : Char) : Nat :=
  if c.isDigit then c.toNat - 48
  else if 'a' ≤ c then c.toNat - 87
  else c.toNat - 55

/-- Scan a JSON string literal after its opening quote, with escapes
(surrogate pairs are not combined; an unescaped control character is an
error, as in strict `json.loads`). -/
def scanStringLit : List Char → List Char → Option (String × List Char)
  | _, [] => none
  | acc, c :: rest =>
    if c = '"' then some (String.mk acc.reverse, rest)
    else if c = '\\' then
      match rest with
      | [] => none
      | e :: rest2 =>
        if e = '"' then scanStringLit ('"' :: acc) rest2
        else if e = '\\' then scanStringLit ('\\' :: acc) rest2
        else if e = '/' then scanStringLit ('/' :: acc) rest2
        else if e = 'b' then scanStringLit ('\x08' :: acc) rest2
        else if e = 'f' then scanStringLit ('\x0c' :: acc) rest2
        else if e = 'n' then scanStringLit ('\n' :: acc) rest2
        else if e = 'r' then scanStringLit ('\x0d' :: acc) rest2
        else if e = 't' then scanStringLit ('\t' :: acc) rest2
        else if e = 'u' then
          match rest2 with
          | a :: b :: c2 :: d :: rest3 =>
            if isHexDig a && isHexDig b && isHexDig c2 && isHexDig d
            then
              scanStringLit
                (Char.ofNat (hexVal a * 4096 + hexVal b * 256
                  + hexVal c2 * 16 + hexVal d) :: acc) rest3
            else none
          | _ => none
        else none
    else if c.toNat < 32 then none
    else scanStringLit (c :: acc) rest

/-- Scan a JSON number token (strict grammar: no leading zeros, no bare dot;
an integer literal without fraction or exponent becomes a Python `int`). -/
def scanNumber (cs : List Char) : Option (JTok × List Char) :=
  let (neg, cs1) : Bool × List Char :=
    match cs with
    | '-' :: t => (true, t)
    | _ => (false, cs)
  let ip := cs1.takeWhile Char.isDigit
  let r1 := cs1.dropWhile Char.isDigit
  if ip.isEmpty then none
  else if 1 < ip.length && ip.headD '0' = '0' then none
  else
    let hasFrac : Bool := match r1 with | '.' :: _ => true | _ => false
    let (fp, r2) : List Char × List Char :=
      match r1 with
      | '.' :: t => (t.takeWhile Char.isDigit, t.dropWhile Char.isDigit)
      | _ => ([], r1)
    if hasFrac && fp.isEmpty then none
    else
      let hasExp : Bool :=
        match r2 with
        | c :: _ => c = 'e' || c = 'E'
        | [] => false
      match parseExponent r2 with
      | none => none
      | some (ex, rest) =>
        if hasFrac || hasExp then
          some (JTok.tnum (decimalToRat neg ip fp ex), rest)
        else
          some (JTok.tint (if neg then -(digitsToNat ip : Int)
            else (digitsToNat ip : Int)), rest)

/-- Tokenize a JSON document.  Fuel decreases once per token or whitespace
character, and every step consumes at least one character, so
`length + 1` fuel always suffices. -/
def tokenize : Nat → List Char → Option (List JTok)
  | _, [] => some []
  | 0, _ :: _ => none
  | fuel + 1, c :: cs =>
    if jsonWs c then tokenize fuel cs
    else if c = '{' then (tokenize fuel cs).map (JTok.lbrace :: ·)
    else if c = '}' then (tokenize fuel cs).map (JTok.rbrace :: ·)
    else if c = '[' then (tokenize fuel cs).map (JTok.lbrack :: ·)
    else if c = ']' then (tokenize fuel cs).map (JTok.rbrack :: ·)
    else if c = ',' then (tokenize fuel cs).map (JTok.comma :: ·)
    else if c = ':' then (tokenize fuel cs).map (JTok.colon :: ·)
    else if c = '"' then
      match scanStringLit [] cs with
      | none => none
      | some (s, rest) => (tokenize fuel rest).map (JTok.tstr s :: ·)
    else if c = '-' || c.isDigit then
      match scanNumber (c :: cs) with
      | none => none
      | some (tok, rest) => (tokenize fuel rest).map (tok :: ·)
    else if c = 't' then
      match cs with
      | 'r' :: 'u' :: 'e' :: rest => (tokenize fuel rest).map (JTok.ttrue :: ·)
      | _ => none
    else if c = 'f' then
      match cs with
      | 'a' :: 'l' :: 's' :: 'e' :: rest =>
        (tokenize fuel rest).map (JTok.tfalse :: ·)
      | _ => none
    else if c = 'n' then
      match cs with
      | 'u' :: 'l' :: 'l' :: rest => (tokenize fuel rest).map (JTok.tnull :: ·)
      | _ => none
    else none

/-- A partially built container during parsing. -/
inductive PFrame where
  | arrF (elems : List Json) : PFrame
  | objF (entries : List (String × Json)) (pending : String) : PFrame
  deriving Inhabited

/-- Parser state: expecting a value, expecting an object key, or holding a
just-completed value. -/
inductive PState where
  | val (stack : List PFrame) (allowArrClose : Bool) : PState
  | objKey (entries : List (String × Json)) (stack : List PFrame)
      (allowObjClose : Bool) : PState
  | after (stack : List PFrame) (v : Json) : PState

/-- Stack-machine reader for the token stream; every step consumes at least
one token, so `length + 1` fuel always suffices.  Leftover tokens after the
root value are an error ("Extra data"), as in strict `json.loads`. -/
def parseSteps : Nat → PState → List JTok → Option Json
  | 0, _, _ => none
  | fuel + 1, PState.val stack allowArrClose, toks =>
    match toks with
    | [] => none
    | JTok.tstr s :: t => parseSteps fuel (PState.after stack (Json.str s)) t
    | JTok.tint n :: t => parseSteps fuel (PState.after stack (Json.pyint n)) t
    | JTok.tnum q :: t => parseSteps fuel (PState.after stack (Json.pynum q)) t
    | JTok.ttrue :: t =>
      parseSteps fuel (PState.after stack (Json.bool true)) t
    | JTok.tfalse :: t =>
      parseSteps fuel (PState.after stack (Json.bool false)) t
    | JTok.tnull :: t => parseSteps fuel (PState.after stack Json.null) t
    | JTok.lbrack :: t =>
      parseSteps fuel (PState.val (PFrame.arrF [] :: stack) true) t
    | JTok.rbrack :: t =>
      match allowArrClose, stack with
      | true, PFrame.arrF [] :: rest =>
        parseSteps fuel (PState.after rest (Json.arr [])) t
      | _, _ => none
    | JTok.lbrace :: t => parseSteps fuel (PState.objKey [] stack true) t
    | _ :: _ => none
  | fuel + 1, PState.objKey entries stack allowObjClose, toks =>
    match toks with
    | JTok.tstr s :: JTok.colon :: t =>
      parseSteps fuel (PState.val (PFrame.objF entries s :: stack) false) t
    | JTok.rbrace :: t =>
      if allowObjClose then
        parseSteps fuel (PState.after stack (Json.obj entries)) t
      else none
    | _ => none
  | fuel + 1, PState.after stack v, toks =>
    match stack with
    | [] =>
      match toks with
      | [] => some v
      | _ :: _ => none
    | PFrame.arrF elems :: rest =>
      match toks with
      | JTok.comma :: t =>
        parseSteps fuel
          (PState.val (PFrame.arrF (v :: elems) :: rest) false) t
      | JTok.rbrack :: t =>
        parseSteps fuel (PState.after rest (Json.arr (v :: elems).reverse)) t
      | _ => none
    | PFrame.objF entries pk :: rest =>
      match toks with
      | JTok.comma :: t =>
        parseSteps fuel (PState.objKey (insertKey entries pk v) rest false) t
      | JTok.rbrace :: t =>
        parseSteps fuel (PState.after rest (Json.obj (insertKey entries pk v))) t
      | _ => none

/-- Python `json.loads` (strict). -/
def json_loads (s : String) : Option Json :=
  match tokenize (s.data.length + 1) s.data with
  | none => none
  | some [] => none
  | some toks => parseSteps (toks.length + 1) (PState.val [] false) toks

/-! ### Truncated JSON repair (`repair_truncated_json`) -/

/-- State of the bracket-stack scan: the open-bracket stack, the offset just
past the most recent matched closing bracket, the stack snapshot at that
offset, and the string/escape flags. -/
structure RepairScan where
  stack : List Char
  lastGood : Nat
  stackAtGood : List Char
  inString : Bool
  escapeNext : Bool

/-- One pass of the Python scan loop (`for i, ch in enumerate(raw)`), with
an unmatched closer aborting the scan (`break`). -/
def repairScanAux : List Char → Nat → RepairScan → RepairScan
  | [], _, st => st
  | ch :: rest, i, st =>
    if st.escapeNext then
      repairScanAux rest (i + 1) { st with escapeNext := false }
    else if ch = '\\' && st.inString then
      repairScanAux rest (i + 1) { st with escapeNext := true }
    else if ch = '"' then
      repairScanAux rest (i + 1) { st with inString := !st.inString }
    else if st.inString then
      repairScanAux rest (i + 1) st
    else if ch = '{' || ch = '[' then
      repairScanAux rest (i + 1) { st with stack := ch :: st.stack }
    else if ch = '}' then
      match st.stack with
      | '{' :: s2 =>
        repairScanAux rest (i + 1)
          { st with stack := s2, lastGood := i + 1, stackAtGood := s2 }
      | _ => st
    else if ch = ']' then
      match st.stack with
      | '[' :: s2 =>
        repairScanAux rest (i + 1)
          { st with stack := s2, lastGood := i + 1, stackAtGood := s2 }
      | _ => st
    else
      repairScanAux rest (i + 1) st

/-- Result of scanning the whole document. -/
def repairScanResult (raw : String) : RepairScan :=
  repairScanAux raw.data 0 ⟨[], 0, [], false, false⟩

/-- The sealed prefix: bytes up to the last-good offset followed by closers
for the snapshot stack, innermost first (`reversed(stack_at_good)` in Python;
the snapshot list here is kept top-first already). -/
def sealedRepair (raw : String) : String :=
  let st := repairScanResult raw
  String.mk (raw.data.take st.lastGood)
    ++ String.mk (st.stackAtGood.map fun b => if b = '[' then ']' else '}')

/-- Python `repair_truncated_json`: recover a truncated JSON document by
sealing at the last matched closing bracket; fail if no closer was ever
matched, if the sealed prefix does not parse strictly, if it is not an
object, or if a required top-level key is missing. -/
def repair_truncated_json (raw : String) : Option Json :=
  let st := repairScanResult raw
  if st.lastGood = 0 then none
  else
    match json_loads (sealedRepair raw) with
    | none => none
    | some d =>
      match d with
      | Json.obj entries =>
        if REQUIRED_TOP_KEYS.all (fun k2 => (lookupKey entries k2).isSome)
        then some (Json.obj entries)
        else none
      | _ => none

/-! ### Claim C6: exact failure conditions of the repair routine -/

/-- **C6.** `repair_truncated_json` returns failure (`none`) iff no closing
bracket was ever matched during the scan (last-good offset is zero), or the
sealed prefix fails strict JSON parsing, or it parses to a non-object, or it
parses to an object missing one of the required top-level keys `cik`,
`entityName`, `facts`; and on every successful return the result is a mapping
containing all three required top-level keys. -/
theorem claim_C6_repair_failure_conditions (raw : String) :
    (repair_truncated_json raw = none ↔
      ((repairScanResult raw).lastGood = 0 ∨
        json_loads (sealedRepair raw) = none ∨
        (∃ d, json_loads (sealedRepair raw) = some d ∧
          ∀ entries, d ≠ Json.obj entries) ∨
        (∃ entries, json_loads (sealedRepair raw) = some (Json.obj entries) ∧
          ¬ ∀ k2 ∈ REQUIRED_TOP_KEYS, (lookupKey entries k2).isSome = true))) ∧
    (∀ d, repair_truncated_json raw = some d →
      ∃ entries, d = Json.obj entries ∧
        ∀ k2 ∈ REQUIRED_TOP_KEYS, (lookupKey entries k2).isSome = true) := by
  by_cases h0 : (repairScanResult raw).lastGood = 0
  · have hrep : repair_truncated_json raw = none := by
      unfold repair_truncated_json
      rw [if_pos h0]
    rw [hrep]
    exact ⟨⟨fun _ => Or.inl h0, fun _ => rfl⟩,
      fun d hd => absurd hd (by simp)⟩
  · cases hjl : json_loads (sealedRepair raw) with
    | none =>
      have hrep : repair_truncated_json raw = none := by
        unfold repair_truncated_json
        rw [if_neg h0, hjl]
      rw [hrep]
      exact ⟨⟨fun _ => Or.inr (Or.inl rfl), fun _ => rfl⟩,
        fun d hd => absurd hd (by simp)⟩
    | some d =>
      cases d with
      | obj entries =>
        by_cases hall :
            (REQUIRED_TOP_KEYS.all fun k2 => (lookupKey entries k2).isSome)
              = true
        · have hrep : repair_truncated_json raw = some (Json.obj entries) := by
            unfold repair_truncated_json
            rw [if_neg h0, hjl]
            exact if_pos hall
          rw [hrep]
          constructor
          · constructor
            · intro h; exact absurd h (by simp)
            · intro h
              rcases h with h | h | ⟨d2, hd2, hne⟩ | ⟨e2, he2, hmiss⟩
              · exact absurd h h0
              · exact absurd h (by simp)
              · have hd2' : Json.obj entries = d2 := by
                  injection hd2 with h3
                exact absurd rfl (hd2' ▸ hne entries)
              · have he2' : entries = e2 := by
                  injection he2 with h3
                  injection h3 with h4
                exact absurd (fun k2 hk2 => List.all_eq_true.mp hall k2 hk2)
                  (he2' ▸ hmiss)
          · intro d2 hd2
            have hd2' : Json.obj entries = d2 := by injection hd2 with h3
            exact ⟨entries, hd2'.symm, fun k2 hk2 =>
              List.all_eq_true.mp hall k2 hk2⟩
        · have hrep : repair_truncated_json raw = none := by
            unfold repair_truncated_json
            rw [if_neg h0, hjl]
            exact if_neg hall
          rw [hrep]
          refine ⟨⟨fun _ => Or.inr (Or.inr (Or.inr ⟨entries, rfl, ?_⟩)),
            fun _ => rfl⟩, fun d2 hd2 => absurd hd2 (by simp)⟩
          intro hforall
          exact hall (List.all_eq_true.mpr fun k2 hk2 => hforall k2 hk2)
      | null =>
        have hrep : repair_truncated_json raw = none := by
          unfold repair_truncated_json
          rw [if_neg h0, hjl]
        rw [hrep]
        exact ⟨⟨fun _ => Or.inr (Or.inr (Or.inl ⟨Json.null, rfl, by simp⟩)),
          fun _ => rfl⟩, fun d2 hd2 => absurd hd2 (by simp)⟩
      | bool b =>
        have hrep : repair_truncated_json raw = none := by
          unfold repair_truncated_json
          rw [if_neg h0, hjl]
        rw [hrep]
        exact ⟨⟨fun _ => Or.inr (Or.inr (Or.inl ⟨Json.bool b, rfl, by simp⟩)),
          fun _ => rfl⟩, fun d2 hd2 => absurd hd2 (by simp)⟩
      | pyint n =>
        have hrep : repair_truncated_json raw = none := by
          unfold repair_truncated_json
          rw [if_neg h0, hjl]
        rw [hrep]
        exact ⟨⟨fun _ => Or.inr (Or.inr (Or.inl ⟨Json.pyint n, rfl, by simp⟩)),
          fun _ => rfl⟩, fun d2 hd2 => absurd hd2 (by simp)⟩
      | pynum q =>
        have hrep : repair_truncated_json raw = none := by
          unfold repair_truncated_json
          rw [if_neg h0, hjl]
        rw [hrep]
        exact ⟨⟨fun _ => Or.inr (Or.inr (Or.inl ⟨Json.pynum q, rfl, by simp⟩)),
          fun _ => rfl⟩, fun d2 hd2 => absurd hd2 (by simp)⟩
      | str s =>
        have hrep : repair_truncated_json raw = none := by
          unfold repair_truncated_json
          rw [if_neg h0, hjl]
        rw [hrep]
        exact ⟨⟨fun _ => Or.inr (Or.inr (Or.inl ⟨Json.str s, rfl, by simp⟩)),
          fun _ => rfl⟩, fun d2 hd2 => absurd hd2 (by simp)⟩
      | arr l =>
        have hrep : repair_truncated_json raw = none := by
          unfold repair_truncated_json
          rw [if_neg h0, hjl]
        rw [hrep]
        exact ⟨⟨fun _ => Or.inr (Or.inr (Or.inl ⟨Json.arr l, rfl, by simp⟩)),
          fun _ => rfl⟩, fun d2 hd2 => absurd hd2 (by simp)⟩

/-- A company facts file truncated in the middle of its `facts` tree, for the
C6 witness. -/
def c6Raw : String :=
  "\x7b\"cik\": 1, \"entityName\": \"A\", \"facts\": \x7b\"t\": \x7b\"c\": 1\x7d"

/-- Witness for C6: repairing the truncated document succeeds, and the
theorem then yields an object carrying all three required top-level keys. -/
theorem claim_C6_witness :
    ∃ entries, (Json.obj [("cik", Json.pyint 1), ("entityName", Json.str "A"),
        ("facts", Json.obj [("t", Json.obj [("c", Json.pyint 1)])])])
        = Json.obj entries ∧
      ∀ k2 ∈ REQUIRED_TOP_KEYS, (lookupKey entries k2).isSome = true :=
  (claim_C6_repair_failure_conditions c6Raw).2
    (Json.obj [("cik", Json.pyint 1), ("entityName", Json.str "A"),
      ("facts", Json.obj [("t", Json.obj [("c", Json.pyint 1)])])])
    (by rfl)

/-! ### The extractor `extract_from_file`

The nested `for` loops over taxonomy → concept → unit → datapoint become one
recursive function per level, threading an accumulator of fact rows, the
concept dictionary and the filing set.  `lenient` is the Python `partial`
flag (a Lean keyword).  String-typed row fields receive `jsonAsString`; in
Python a non-string value would flow unchanged into the Arrow writer and fail
there, outside this function, so extraction success is unaffected. -/

/-- A filing tuple `(cik, accession_number, form, filed_date)`. -/
abbrev Filing := String × String × String × String

/-- Accumulator of `extract_from_file`. -/
structure ExtractAcc where
  rows : List FactRow
  concepts : List ((String × String) × (String × String))
  filings : Finset Filing

/-- Python `concepts[(taxonomy, concept)] = (label, description)`: replace in
place if present, else append. -/
def insertConcept (cs : List ((String × String) × (String × String)))
    (k : String × String) (v : String × String) :
    List ((String × String) × (String × String)) :=
  match cs with
  | [] => [(k, v)]
  | (k', v') :: rest =>
    if k' = k then (k', v) :: rest else (k', v') :: insertConcept rest k v

/-- String view of a JSON value for string-typed row fields. -/
def jsonAsString (j : Json) : String :=
  match j with
  | Json.str s => s
  | j => pyFormat j

/-- All seven required datapoint fields are present
(`REQUIRED_DATAPOINT_FIELDS.issubset(dp.keys())`). -/
def requiredFieldsPresent (kvs : List (String × Json)) : Bool :=
  REQUIRED_DATAPOINT_FIELDS.all fun k => (lookupKey kvs k).isSome

/-- Python `fy if isinstance(fy, int) else None` (a Python `bool` is an
`int`). -/
def fyStored (j : Json) : Option Int :=
  match j with
  | Json.pyint n => some n
  | Json.bool b => some (if b then 1 else 0)
  | _ => none

/-- Python `fp if isinstance(fp, str) else ""`. -/
def fpStored (j : Json) : String :=
  match j with
  | Json.str s => s
  | _ => ""

/-- Process one datapoint: in lenient (partial) mode a datapoint missing
required fields is skipped; a datapoint that is not a mapping raises in both
modes (`dp.keys()` raises `AttributeError`); a non-numeric `val` raises in
both modes. -/
def processDatapoint (cik_str taxonomy concept_name unit_name : String)
    (lenient : Bool) (acc : ExtractAcc) (dp : Json) :
    Except String ExtractAcc :=
  match dp with
  | Json.obj kvs =>
    if lenient && !(requiredFieldsPresent kvs) then Except.ok acc
    else if !(requiredFieldsPresent kvs) then
      Except.error "datapoint missing fields"
    else
      let startJ := (lookupKey kvs "start").getD (Json.str "")
      let start_date := jsonAsString startJ
      let endJ := (lookupKey kvs "end").getD Json.null
      let end_date := jsonAsString endJ
      let fyJ := (lookupKey kvs "fy").getD Json.null
      let fpJ := (lookupKey kvs "fp").getD Json.null
      match pyFloat ((lookupKey kvs "val").getD Json.null) with
      | none => Except.error "val is not numeric"
      | some val =>
        let formS := jsonAsString ((lookupKey kvs "form").getD Json.null)
        let filedS := jsonAsString ((lookupKey kvs "filed").getD Json.null)
        let accnS := jsonAsString ((lookupKey kvs "accn").getD Json.null)
        Except.ok
          { acc with
            rows := acc.rows ++
              [{ cik := cik_str, taxonomy := taxonomy,
                 concept := concept_name, unit := unit_name, value := val,
                 start_date := start_date, end_date := end_date,
                 fy := fyStored fyJ, fp := fpStored fpJ, form := formS,
                 filed_date := filedS, accession_number := accnS,
                 frame := jsonAsString
                   ((lookupKey kvs "frame").getD (Json.str "")),
                 period_type := compute_period_type start_date,
                 period_key := compute_period_key fyJ fpJ
                   start_date end_date }],
            filings := insert (cik_str, accnS, formS, filedS) acc.filings }
  | _ => Except.error "datapoint is not a mapping"

/-- Fold over a unit's datapoint list. -/
def processDatapoints (cik_str taxonomy concept_name unit_name : String)
    (lenient : Bool) :
    ExtractAcc → List Json → Except String ExtractAcc
  | acc, [] => Except.ok acc
  | acc, dp :: rest =>
    match processDatapoint cik_str taxonomy concept_name unit_name
        lenient acc dp with
    | Except.error e => Except.error e
    | Except.ok acc2 =>
      processDatapoints cik_str taxonomy concept_name unit_name
        lenient acc2 rest

/-- Fold over `units.items()`: a non-list datapoint array is skipped in
lenient mode, a `TypeError` in strict mode. -/
def processUnits (cik_str taxonomy concept_name : String) (lenient : Bool) :
    ExtractAcc → List (String × Json) → Except String ExtractAcc
  | acc, [] => Except.ok acc
  | acc, (unit_name, dps) :: rest =>
    match dps with
    | Json.arr l =>
      match processDatapoints cik_str taxonomy concept_name unit_name
          lenient acc l with
      | Except.error e => Except.error e
      | Except.ok acc2 =>
        processUnits cik_str taxonomy concept_name lenient acc2 rest
    | _ =>
      if lenient then processUnits cik_str taxonomy concept_name lenient acc rest
      else Except.error "unit datapoint array must be list"

/-- Python `concept_body.get("label", "")` (an explicit `null` behaves like a
missing key for the later truthiness test, and is stored as the empty
string in this model). -/
def conceptText (body : List (String × Json)) (field : String) : String :=
  match lookupKey body field with
  | some (Json.str s) => s
  | some Json.null => ""
  | some j => jsonAsString j
  | none => ""

/-- Register a concept in the dimension table
(`concepts[(taxonomy, concept_name)] = (label, description)`). -/
def registerConcept (taxonomy concept_name : String) (acc : ExtractAcc)
    (body : List (String × Json)) : ExtractAcc :=
  { acc with
    concepts := insertConcept acc.concepts (taxonomy, concept_name)
      (conceptText body "label", conceptText body "description") }

/-- Fold over `taxonomy_concepts.items()`.  The concept is registered in the
dimension table before the `units` checks, exactly as in the source; a
`units` value of `null` behaves like a missing key (`dict.get` returns
`None` for both). -/
def processConcepts (cik_str taxonomy : String) (lenient : Bool) :
    ExtractAcc → List (String × Json) → Except String ExtractAcc
  | acc, [] => Except.ok acc
  | acc, (concept_name, concept_body) :: rest =>
    match concept_body with
    | Json.obj body =>
      let acc2 := registerConcept taxonomy concept_name acc body
      match lookupKey body "units" with
      | none =>
        if lenient then processConcepts cik_str taxonomy lenient acc2 rest
        else Except.error "concept has no units key"
      | some Json.null =>
        if lenient then processConcepts cik_str taxonomy lenient acc2 rest
        else Except.error "concept has no units key"
      | some (Json.obj us) =>
        match processUnits cik_str taxonomy concept_name lenient acc2 us with
        | Except.error e => Except.error e
        | Except.ok acc3 => processConcepts cik_str taxonomy lenient acc3 rest
      | some _ =>
        if lenient then processConcepts cik_str taxonomy lenient acc2 rest
        else Except.error "concept units must be dict"
    | _ =>
      if lenient then processConcepts cik_str taxonomy lenient acc rest
      else Except.error "concept must be dict"

/-- Fold over `data["facts"].items()`. -/
def processTaxonomies (cik_str : String) (lenient : Bool) :
    ExtractAcc → List (String × Json) → Except String ExtractAcc
  | acc, [] => Except.ok acc
  | acc, (taxonomy, tv) :: rest =>
    match tv with
    | Json.obj cs =>
      match processConcepts cik_str taxonomy lenient acc cs with
      | Except.error e => Except.error e
      | Except.ok acc2 => processTaxonomies cik_str lenient acc2 rest
    | _ =>
      if lenient then processTaxonomies cik_str lenient acc rest
      else Except.error "taxonomy value must be dict"

/-- Python `extract_from_file(data, filepath, partial)`: returns the fact
rows, the concept dictionary and the filing set. -/
def extract_from_file (data : List (String × Json)) (lenient : Bool) :
    Except String
      (List FactRow × List ((String × String) × (String × String))
        × Finset Filing) :=
  match lookupKey data "cik" with
  | none => Except.error "KeyError: cik"
  | some cikJ =>
    let cik_str := zfill (pyFormat cikJ) 10
    match lookupKey data "facts" with
    | none => Except.error "KeyError: facts"
    | some (Json.obj fobj) =>
      match processTaxonomies cik_str lenient ⟨[], [], ∅⟩ fobj with
      | Except.error e => Except.error e
      | Except.ok acc => Except.ok (acc.rows, acc.concepts, acc.filings)
    | some _ => Except.error "facts has no items method"

/-! ### Reachable datapoints and per-mode success characterizations -/

/-- The datapoints the extractor's loops reach inside one `units` mapping:
elements of list-valued unit entries (non-list entries contribute nothing). -/
def dpsOfUnits : List (String × Json) → List Json
  | [] => []
  | (_, Json.arr l) :: rest => l ++ dpsOfUnits rest
  | _ :: rest => dpsOfUnits rest

/-- Reachable datapoints of a concept mapping. -/
def dpsOfConcepts : List (String × Json) → List Json
  | [] => []
  | (_, Json.obj body) :: rest =>
    (match lookupKey body "units" with
     | some (Json.obj us) => dpsOfUnits us
     | _ => []) ++ dpsOfConcepts rest
  | _ :: rest => dpsOfConcepts rest

/-- Reachable datapoints of the whole `facts` mapping. -/
def dpsOfTaxonomies : List (String × Json) → List Json
  | [] => []
  | (_, Json.obj cs) :: rest => dpsOfConcepts cs ++ dpsOfTaxonomies rest
  | _ :: rest => dpsOfTaxonomies rest

/-- A datapoint that partial-mode extraction survives: it is a mapping, and
if all required fields are present its `val` coerces to float. -/
def lenientDpSafe (dp : Json) : Bool :=
  match dp with
  | Json.obj kvs =>
    if requiredFieldsPresent kvs then
      (pyFloat ((lookupKey kvs "val").getD Json.null)).isSome
    else true
  | _ => false

/-- A datapoint that strict-mode extraction survives: a mapping with all
required fields whose `val` coerces to float. -/
def strictDpSafe (dp : Json) : Bool :=
  match dp with
  | Json.obj kvs =>
    requiredFieldsPresent kvs &&
      (pyFloat ((lookupKey kvs "val").getD Json.null)).isSome
  | _ => false

/-- Success indicator of an `Except`. -/
def isOkB : Except String α → Bool
  | Except.ok _ => true
  | Except.error _ => false

theorem processDatapoint_lenient_ok (c t co u : String) (acc : ExtractAcc)
    (dp : Json) :
    isOkB (processDatapoint c t co u true acc dp) = lenientDpSafe dp := by
  cases dp with
  | obj kvs =>
    by_cases hreq : requiredFieldsPresent kvs
    · cases hv : pyFloat ((lookupKey kvs "val").getD Json.null) <;>
        simp [processDatapoint, lenientDpSafe, hreq, hv, isOkB]
    · simp only [Bool.not_eq_true] at hreq
      simp [processDatapoint, lenientDpSafe, hreq, isOkB]
  | null => rfl
  | bool b => rfl
  | pyint n => rfl
  | pynum q => rfl
  | str s => rfl
  | arr l => rfl

theorem processDatapoint_strict_ok (c t co u : String) (acc : ExtractAcc)
    (dp : Json) :
    isOkB (processDatapoint c t co u false acc dp) = strictDpSafe dp := by
  cases dp with
  | obj kvs =>
    by_cases hreq : requiredFieldsPresent kvs
    · cases hv : pyFloat ((lookupKey kvs "val").getD Json.null) <;>
        simp [processDatapoint, strictDpSafe, hreq, hv, isOkB]
    · simp only [Bool.not_eq_true] at hreq
      simp [processDatapoint, strictDpSafe, hreq, isOkB]
  | null => rfl
  | bool b => rfl
  | pyint n => rfl
  | pynum q => rfl
  | str s => rfl
  | arr l => rfl

/-- When a datapoint is processed successfully, the rows either were already
accumulated or come from that datapoint with a coerced `val`. -/
theorem processDatapoint_rows (c t co u : String) (lenient : Bool)
    {acc acc2 : ExtractAcc} {dp : Json}
    (h : processDatapoint c t co u lenient acc dp = Except.ok acc2) :
    ∀ row ∈ acc2.rows, row ∈ acc.rows ∨
      ∃ kvs, dp = Json.obj kvs ∧ requiredFieldsPresent kvs = true ∧
        pyFloat ((lookupKey kvs "val").getD Json.null) = some row.value := by
  cases dp with
  | obj kvs =>
    by_cases hskip : lenient && !(requiredFieldsPresent kvs)
    · rw [processDatapoint, if_pos hskip] at h
      injection h with h2
      subst h2
      exact fun row hr => Or.inl hr
    · by_cases hreq : requiredFieldsPresent kvs
      · rw [processDatapoint, if_neg hskip, if_neg (by simp [hreq])] at h
        cases hv : pyFloat ((lookupKey kvs "val").getD Json.null) with
        | none => rw [hv] at h; exact absurd h (by simp)
        | some v =>
          rw [hv] at h
          injection h with h2
          subst h2
          intro row hr
          simp only [List.mem_append, List.mem_singleton] at hr
          rcases hr with hr | hr
          · exact Or.inl hr
          · subst hr
            exact Or.inr ⟨kvs, rfl, hreq, hv⟩
      · rw [processDatapoint, if_neg hskip,
          if_pos (by simp [Bool.not_eq_true] at hreq; simp [hreq])] at h
        exact absurd h (by simp)
  | null => exact absurd h (by simp [processDatapoint])
  | bool b => exact absurd h (by simp [processDatapoint])
  | pyint n => exact absurd h (by simp [processDatapoint])
  | pynum q => exact absurd h (by simp [processDatapoint])
  | str s => exact absurd h (by simp [processDatapoint])
  | arr l => exact absurd h (by simp [processDatapoint])

/-- Mode-indexed datapoint safety. -/
def dpSafe (lenient : Bool) (dp : Json) : Bool :=
  if lenient then lenientDpSafe dp else strictDpSafe dp

theorem processDatapoint_ok_mode (c t co u : String) (lenient : Bool)
    (acc : ExtractAcc) (dp : Json) :
    isOkB (processDatapoint c t co u lenient acc dp) = dpSafe lenient dp := by
  cases lenient
  · exact processDatapoint_strict_ok c t co u acc dp
  · exact processDatapoint_lenient_ok c t co u acc dp

theorem processDatapoints_ok (c t co u : String) (lenient : Bool) :
    ∀ (dps : List Json) (acc : ExtractAcc),
      isOkB (processDatapoints c t co u lenient acc dps)
        = dps.all (dpSafe lenient) := by
  intro dps
  induction dps with
  | nil => intro acc; rfl
  | cons dp rest ih =>
    intro acc
    have hdp := processDatapoint_ok_mode c t co u lenient acc dp
    cases hh : processDatapoint c t co u lenient acc dp with
    | error e =>
      rw [hh] at hdp
      simp only [processDatapoints, hh, List.all_cons, ← hdp, isOkB]
      rfl
    | ok acc2 =>
      rw [hh] at hdp
      simp only [processDatapoints, hh, List.all_cons, ← hdp, ih acc2]
      rfl

/-- Strict-mode shape compliance of one `units` mapping. -/
def strictUnitsOkB : List (String × Json) → Bool
  | [] => true
  | (_, Json.arr l) :: rest => l.all strictDpSafe && strictUnitsOkB rest
  | _ :: _ => false

/-- Strict-mode shape compliance of one concept mapping. -/
def strictConceptsOkB : List (String × Json) → Bool
  | [] => true
  | (_, Json.obj body) :: rest =>
    (match lookupKey body "units" with
     | some (Json.obj us) => strictUnitsOkB us
     | _ => false) && strictConceptsOkB rest
  | _ :: _ => false

/-- Strict-mode shape compliance of the whole `facts` mapping. -/
def strictTaxonomiesOkB : List (String × Json) → Bool
  | [] => true
  | (_, Json.obj cs) :: rest => strictConceptsOkB cs && strictTaxonomiesOkB rest
  | _ :: _ => false

theorem processUnits_ok_lenient (c t co : String) :
    ∀ (us : List (String × Json)) (acc : ExtractAcc),
      isOkB (processUnits c t co true acc us)
        = (dpsOfUnits us).all lenientDpSafe := by
  intro us
  induction us with
  | nil => intro acc; rfl
  | cons p rest ih =>
    intro acc
    obtain ⟨u, dps⟩ := p
    cases dps with
    | arr l =>
      have hl := processDatapoints_ok c t co u true l acc
      cases hh : processDatapoints c t co u true acc l with
      | error e =>
        rw [hh] at hl
        have hl2 : l.all lenientDpSafe = false := hl.symm
        simp [processUnits, hh, dpsOfUnits, List.all_append, hl2, isOkB]
      | ok acc2 =>
        rw [hh] at hl
        have hl2 : l.all lenientDpSafe = true := hl.symm
        simp only [processUnits, hh, dpsOfUnits, List.all_append, hl2,
          Bool.true_and]
        exact ih acc2
    | obj kvs => simpa [processUnits, dpsOfUnits] using ih acc
    | null => simpa [processUnits, dpsOfUnits] using ih acc
    | bool b => simpa [processUnits, dpsOfUnits] using ih acc
    | pyint n => simpa [processUnits, dpsOfUnits] using ih acc
    | pynum q => simpa [processUnits, dpsOfUnits] using ih acc
    | str s => simpa [processUnits, dpsOfUnits] using ih acc

theorem processUnits_ok_strict (c t co : String) :
    ∀ (us : List (String × Json)) (acc : ExtractAcc),
      isOkB (processUnits c t co false acc us) = strictUnitsOkB us := by
  intro us
  induction us with
  | nil => intro acc; rfl
  | cons p rest ih =>
    intro acc
    obtain ⟨u, dps⟩ := p
    cases dps with
    | arr l =>
      have hl := processDatapoints_ok c t co u false l acc
      cases hh : processDatapoints c t co u false acc l with
      | error e =>
        rw [hh] at hl
        have hl2 : l.all strictDpSafe = false := hl.symm
        simp [processUnits, hh, strictUnitsOkB, hl2, isOkB]
      | ok acc2 =>
        rw [hh] at hl
        have hl2 : l.all strictDpSafe = true := hl.symm
        simp only [processUnits, hh, strictUnitsOkB, hl2, Bool.true_and]
        exact ih acc2
    | obj kvs => rfl
    | null => rfl
    | bool b => rfl
    | pyint n => rfl
    | pynum q => rfl
    | str s => rfl

theorem processConcepts_ok_lenient (c t : String) :
    ∀ (cs : List (String × Json)) (acc : ExtractAcc),
      isOkB (processConcepts c t true acc cs)
        = (dpsOfConcepts cs).all lenientDpSafe := by
  intro cs
  induction cs with
  | nil => intro acc; rfl
  | cons p rest ih =>
    intro acc
    obtain ⟨con, body⟩ := p
    cases body with
    | obj bodykvs =>
      cases hu : lookupKey bodykvs "units" with
      | none =>
        simp only [processConcepts, hu, dpsOfConcepts, List.nil_append,
          if_pos]
        exact ih _
      | some uj =>
        cases uj with
        | obj us =>
          have hl := processUnits_ok_lenient c t con us
            (registerConcept t con acc bodykvs)
          cases hh : processUnits c t con true
              (registerConcept t con acc bodykvs) us with
          | error e =>
            rw [hh] at hl
            have hl2 : (dpsOfUnits us).all lenientDpSafe = false := hl.symm
            simp [processConcepts, hu, hh, dpsOfConcepts, List.all_append,
              hl2, isOkB]
          | ok acc3 =>
            rw [hh] at hl
            have hl2 : (dpsOfUnits us).all lenientDpSafe = true := hl.symm
            simp only [processConcepts, hu, hh, dpsOfConcepts,
              List.all_append, hl2, Bool.true_and]
            exact ih _
        | null =>
          simp only [processConcepts, hu, dpsOfConcepts, List.nil_append,
            if_pos]
          exact ih _
        | bool b =>
          simp only [processConcepts, hu, dpsOfConcepts, List.nil_append,
            if_pos]
          exact ih _
        | pyint n =>
          simp only [processConcepts, hu, dpsOfConcepts, List.nil_append,
            if_pos]
          exact ih _
        | pynum q =>
          simp only [processConcepts, hu, dpsOfConcepts, List.nil_append,
            if_pos]
          exact ih _
        | str s =>
          simp only [processConcepts, hu, dpsOfConcepts, List.nil_append,
            if_pos]
          exact ih _
        | arr l =>
          simp only [processConcepts, hu, dpsOfConcepts, List.nil_append,
            if_pos]
          exact ih _
    | null => simpa [processConcepts, dpsOfConcepts] using ih acc
    | bool b => simpa [processConcepts, dpsOfConcepts] using ih acc
    | pyint n => simpa [processConcepts, dpsOfConcepts] using ih acc
    | pynum q => simpa [processConcepts, dpsOfConcepts] using ih acc
    | str s => simpa [processConcepts, dpsOfConcepts] using ih acc
    | arr l => simpa [processConcepts, dpsOfConcepts] using ih acc

theorem processConcepts_ok_strict (c t : String) :
    ∀ (cs : List (String × Json)) (acc : ExtractAcc),
      isOkB (processConcepts c t false acc cs) = strictConceptsOkB cs := by
  intro cs
  induction cs with
  | nil => intro acc; rfl
  | cons p rest ih =>
    intro acc
    obtain ⟨con, body⟩ := p
    cases body with
    | obj bodykvs =>
      cases hu : lookupKey bodykvs "units" with
      | none => simp [processConcepts, hu, strictConceptsOkB, isOkB]
      | some uj =>
        cases uj with
        | obj us =>
          have hl := processUnits_ok_strict c t con us
            (registerConcept t con acc bodykvs)
          cases hh : processUnits c t con false
              (registerConcept t con acc bodykvs) us with
          | error e =>
            rw [hh] at hl
            have hl2 : strictUnitsOkB us = false := hl.symm
            simp [processConcepts, hu, hh, strictConceptsOkB, hl2, isOkB]
          | ok acc3 =>
            rw [hh] at hl
            have hl2 : strictUnitsOkB us = true := hl.symm
            simp only [processConcepts, hu, hh, strictConceptsOkB, hl2,
              Bool.true_and]
            exact ih _
        | null => simp [processConcepts, hu, strictConceptsOkB, isOkB]
        | bool b => simp [processConcepts, hu, strictConceptsOkB, isOkB]
        | pyint n => simp [processConcepts, hu, strictConceptsOkB, isOkB]
        | pynum q => simp [processConcepts, hu, strictConceptsOkB, isOkB]
        | str s => simp [processConcepts, hu, strictConceptsOkB, isOkB]
        | arr l => simp [processConcepts, hu, strictConceptsOkB, isOkB]
    | null => rfl
    | bool b => rfl
    | pyint n => rfl
    | pynum q => rfl
    | str s => rfl
    | arr l => rfl

theorem processTaxonomies_ok_lenient (c : String) :
    ∀ (ts : List (String × Json)) (acc : ExtractAcc),
      isOkB (processTaxonomies c true acc ts)
        = (dpsOfTaxonomies ts).all lenientDpSafe := by
  intro ts
  induction ts with
  | nil => intro acc; rfl
  | cons p rest ih =>
    intro acc
    obtain ⟨t, tv⟩ := p
    cases tv with
    | obj cs =>
      have hl := processConcepts_ok_lenient c t cs acc
      cases hh : processConcepts c t true acc cs with
      | error e =>
        rw [hh] at hl
        have hl2 : (dpsOfConcepts cs).all lenientDpSafe = false := hl.symm
        simp [processTaxonomies, hh, dpsOfTaxonomies, List.all_append, hl2,
          isOkB]
      | ok acc2 =>
        rw [hh] at hl
        have hl2 : (dpsOfConcepts cs).all lenientDpSafe = true := hl.symm
        simp only [processTaxonomies, hh, dpsOfTaxonomies, List.all_append,
          hl2, Bool.true_and]
        exact ih _
    | null => simpa [processTaxonomies, dpsOfTaxonomies] using ih acc
    | bool b => simpa [processTaxonomies, dpsOfTaxonomies] using ih acc
    | pyint n => simpa [processTaxonomies, dpsOfTaxonomies] using ih acc
    | pynum q => simpa [processTaxonomies, dpsOfTaxonomies] using ih acc
    | str s => simpa [processTaxonomies, dpsOfTaxonomies] using ih acc
    | arr l => simpa [processTaxonomies, dpsOfTaxonomies] using ih acc

theorem processTaxonomies_ok_strict (c : String) :
    ∀ (ts : List (String × Json)) (acc : ExtractAcc),
      isOkB (processTaxonomies c false acc ts) = strictTaxonomiesOkB ts := by
  intro ts
  induction ts with
  | nil => intro acc; rfl
  | cons p rest ih =>
    intro acc
    obtain ⟨t, tv⟩ := p
    cases tv with
    | obj cs =>
      have hl := processConcepts_ok_strict c t cs acc
      cases hh : processConcepts c t false acc cs with
      | error e =>
        rw [hh] at hl
        have hl2 : strictConceptsOkB cs = false := hl.symm
        simp [processTaxonomies, hh, strictTaxonomiesOkB, hl2, isOkB]
      | ok acc2 =>
        rw [hh] at hl
        have hl2 : strictConceptsOkB cs = true := hl.symm
        simp only [processTaxonomies, hh, strictTaxonomiesOkB, hl2,
          Bool.true_and]
        exact ih _
    | null => rfl
    | bool b => rfl
    | pyint n => rfl
    | pynum q => rfl
    | str s => rfl
    | arr l => rfl

theorem extract_ok_lenient {data : List (String × Json)}
    {fobj : List (String × Json)}
    (hc : (lookupKey data "cik").isSome = true)
    (hf : lookupKey data "facts" = some (Json.obj fobj)) :
    isOkB (extract_from_file data true)
      = (dpsOfTaxonomies fobj).all lenientDpSafe := by
  obtain ⟨cikJ, hck⟩ := Option.isSome_iff_exists.mp hc
  have hrw : extract_from_file data true
      = (match processTaxonomies (zfill (pyFormat cikJ) 10) true
          ⟨[], [], ∅⟩ fobj with
        | Except.error e => Except.error e
        | Except.ok acc => Except.ok (acc.rows, acc.concepts, acc.filings)) := by
    unfold extract_from_file
    rw [hck, hf]
  have hl := processTaxonomies_ok_lenient (zfill (pyFormat cikJ) 10) fobj
    ⟨[], [], ∅⟩
  cases hh : processTaxonomies (zfill (pyFormat cikJ) 10) true
      ⟨[], [], ∅⟩ fobj with
  | error e =>
    rw [hh] at hl
    rw [hrw, hh]
    exact hl
  | ok acc =>
    rw [hh] at hl
    rw [hrw, hh]
    exact hl

theorem extract_ok_strict {data : List (String × Json)}
    {fobj : List (String × Json)}
    (hc : (lookupKey data "cik").isSome = true)
    (hf : lookupKey data "facts" = some (Json.obj fobj)) :
    isOkB (extract_from_file data false) = strictTaxonomiesOkB fobj := by
  obtain ⟨cikJ, hck⟩ := Option.isSome_iff_exists.mp hc
  have hrw : extract_from_file data false
      = (match processTaxonomies (zfill (pyFormat cikJ) 10) false
          ⟨[], [], ∅⟩ fobj with
        | Except.error e => Except.error e
        | Except.ok acc => Except.ok (acc.rows, acc.concepts, acc.filings)) := by
    unfold extract_from_file
    rw [hck, hf]
  have hl := processTaxonomies_ok_strict (zfill (pyFormat cikJ) 10) fobj
    ⟨[], [], ∅⟩
  cases hh : processTaxonomies (zfill (pyFormat cikJ) 10) false
      ⟨[], [], ∅⟩ fobj with
  | error e =>
    rw [hh] at hl
    rw [hrw, hh]
    exact hl
  | ok acc =>
    rw [hh] at hl
    rw [hrw, hh]
    exact hl

/-! ### Claim C3: shape-error handling in partial vs strict mode

The claim also asserts that a datapoint that is not a mapping at all is
skipped silently in partial mode.  It is not: the membership test
`REQUIRED_DATAPOINT_FIELDS.issubset(dp.keys())` calls `.keys()` on the
datapoint, which raises `AttributeError` for a non-mapping, in partial mode
just as in strict mode. -/

/-- A partial-mode document whose only datapoint is a bare string. -/
def c3BadDoc : List (String × Json) :=
  [("cik", Json.pyint 1),
   ("facts", Json.obj [("t", Json.obj [("c", Json.obj
      [("units", Json.obj [("u", Json.arr [Json.str "oops"])])])])])]

/-- **C3 (counterexample).** In partial mode a datapoint that is not a
mapping raises instead of being skipped silently: extraction of `c3BadDoc`
fails. -/
theorem claim_C3_counterexample :
    extract_from_file c3BadDoc true
      = Except.error "datapoint is not a mapping" := rfl

/-- **C3 (amended).** When extraction runs in partial mode, every shape error
below the top level — a non-mapping taxonomy value, a non-mapping concept
body, a missing or non-mapping `units` key, a non-list datapoint array, or a
mapping datapoint missing required fields — causes that subtree to be skipped
silently without raising: partial-mode success depends only on every
reachable datapoint being a mapping whose `val` coerces when its required
fields are all present.  In strict mode extraction succeeds only under full
shape compliance, so every such shape error raises.  (A datapoint that is not
a mapping at all raises in both modes.) -/
theorem claim_C3_shape_error_handling_amended (data : List (String × Json))
    (fobj : List (String × Json))
    (hc : (lookupKey data "cik").isSome = true)
    (hf : lookupKey data "facts" = some (Json.obj fobj)) :
    (isOkB (extract_from_file data true)
        = (dpsOfTaxonomies fobj).all lenientDpSafe) ∧
    (isOkB (extract_from_file data false) = strictTaxonomiesOkB fobj) :=
  ⟨extract_ok_lenient hc hf, extract_ok_strict hc hf⟩

/-- A document exercising every skippable shape error, with one well-formed
but field-incomplete datapoint. -/
def c3SkipDoc : List (String × Json) :=
  [("cik", Json.pyint 1),
   ("facts", Json.obj
     [("badTaxonomy", Json.str "x"),
      ("t", Json.obj
        [("badConcept", Json.pyint 5),
         ("noUnits", Json.obj []),
         ("badUnits", Json.obj [("units", Json.str "z")]),
         ("c", Json.obj
           [("units", Json.obj
             [("badArray", Json.pyint 7),
              ("u", Json.arr [Json.obj [("end", Json.str "2021-12-31")]])])])])])]

/-- Witness for C3 (amended): the document full of shape errors extracts
fine in partial mode (everything offending is skipped) and fails in strict
mode. -/
theorem claim_C3_witness :
    isOkB (extract_from_file c3SkipDoc true) = true ∧
      isOkB (extract_from_file c3SkipDoc false) = false := by
  have h := claim_C3_shape_error_handling_amended c3SkipDoc
    (match lookupKey c3SkipDoc "facts" with
     | some (Json.obj fo) => fo
     | _ => []) (by rfl) (by rfl)
  exact ⟨h.1.trans (by rfl), h.2.trans (by rfl)⟩

/-! ### Claim C4: value coercion is total on emitted rows, hard on failures -/

theorem strictUnitsOkB_dps :
    ∀ {us : List (String × Json)}, strictUnitsOkB us = true →
      ∀ dp ∈ dpsOfUnits us, strictDpSafe dp = true := by
  intro us
  induction us with
  | nil => intro _ dp hdp; simp [dpsOfUnits] at hdp
  | cons p rest ih =>
    obtain ⟨u, uv⟩ := p
    intro h dp hdp
    cases uv with
    | arr l =>
      rw [strictUnitsOkB, Bool.and_eq_true] at h
      simp only [dpsOfUnits, List.mem_append] at hdp
      rcases hdp with h1 | h1
      · exact List.all_eq_true.mp h.1 dp h1
      · exact ih h.2 dp h1
    | null => simp [strictUnitsOkB] at h
    | bool b => simp [strictUnitsOkB] at h
    | pyint n => simp [strictUnitsOkB] at h
    | pynum q => simp [strictUnitsOkB] at h
    | str s => simp [strictUnitsOkB] at h
    | obj kvs => simp [strictUnitsOkB] at h

theorem strictConceptsOkB_dps :
    ∀ {cs : List (String × Json)}, strictConceptsOkB cs = true →
      ∀ dp ∈ dpsOfConcepts cs, strictDpSafe dp = true := by
  intro cs
  induction cs with
  | nil => intro _ dp hdp; simp [dpsOfConcepts] at hdp
  | cons p rest ih =>
    obtain ⟨con, body⟩ := p
    intro h dp hdp
    cases body with
    | obj bodykvs =>
      rw [strictConceptsOkB, Bool.and_eq_true] at h
      simp only [dpsOfConcepts, List.mem_append] at hdp
      cases hu : lookupKey bodykvs "units" with
      | none =>
        rw [hu] at h
        exact absurd h.1 (by simp)
      | some uj =>
        cases uj with
        | obj us =>
          rw [hu] at h hdp
          rcases hdp with h1 | h1
          · exact strictUnitsOkB_dps h.1 dp h1
          · exact ih h.2 dp h1
        | null => rw [hu] at h; exact absurd h.1 (by simp)
        | bool b => rw [hu] at h; exact absurd h.1 (by simp)
        | pyint n => rw [hu] at h; exact absurd h.1 (by simp)
        | pynum q => rw [hu] at h; exact absurd h.1 (by simp)
        | str s => rw [hu] at h; exact absurd h.1 (by simp)
        | arr l => rw [hu] at h; exact absurd h.1 (by simp)
    | null => simp [strictConceptsOkB] at h
    | bool b => simp [strictConceptsOkB] at h
    | pyint n => simp [strictConceptsOkB] at h
    | pynum q => simp [strictConceptsOkB] at h
    | str s => simp [strictConceptsOkB] at h
    | arr l => simp [strictConceptsOkB] at h

theorem strictTaxonomiesOkB_dps :
    ∀ {ts : List (String × Json)}, strictTaxonomiesOkB ts = true →
      ∀ dp ∈ dpsOfTaxonomies ts, strictDpSafe dp = true := by
  intro ts
  induction ts with
  | nil => intro _ dp hdp; simp [dpsOfTaxonomies] at hdp
  | cons p rest ih =>
    obtain ⟨t, tv⟩ := p
    intro h dp hdp
    cases tv with
    | obj cs =>
      rw [strictTaxonomiesOkB, Bool.and_eq_true] at h
      simp only [dpsOfTaxonomies, List.mem_append] at hdp
      rcases hdp with h1 | h1
      · exact strictConceptsOkB_dps h.1 dp h1
      · exact ih h.2 dp h1
    | null => simp [strictTaxonomiesOkB] at h
    | bool b => simp [strictTaxonomiesOkB] at h
    | pyint n => simp [strictTaxonomiesOkB] at h
    | pynum q => simp [strictTaxonomiesOkB] at h
    | str s => simp [strictTaxonomiesOkB] at h
    | arr l => simp [strictTaxonomiesOkB] at h

/-- Provenance of rows through a datapoint list. -/
theorem processDatapoints_rows (c t co u : String) (lenient : Bool) :
    ∀ (dps : List Json) (acc acc2 : ExtractAcc),
      processDatapoints c t co u lenient acc dps = Except.ok acc2 →
      ∀ row ∈ acc2.rows, row ∈ acc.rows ∨
        ∃ kvs, Json.obj kvs ∈ dps ∧ requiredFieldsPresent kvs = true ∧
          pyFloat ((lookupKey kvs "val").getD Json.null)
            = some row.value := by
  intro dps
  induction dps with
  | nil =>
    intro acc acc2 h row hr
    injection h with h2
    subst h2
    exact Or.inl hr
  | cons dp rest ih =>
    intro acc acc2 h row hr
    rw [processDatapoints] at h
    cases hh : processDatapoint c t co u lenient acc dp with
    | error e => rw [hh] at h; exact absurd h (by simp)
    | ok accm =>
      rw [hh] at h
      rcases ih accm acc2 h row hr with hmem | ⟨kvs, hk1, hk2, hk3⟩
      · rcases processDatapoint_rows c t co u lenient hh row hmem with
          hmem2 | ⟨kvs, h1, h2, h3⟩
        · exact Or.inl hmem2
        · refine Or.inr ⟨kvs, ?_, h2, h3⟩
          rw [← h1]
          exact List.mem_cons_self _ _
      · exact Or.inr ⟨kvs, List.mem_cons_of_mem _ hk1, hk2, hk3⟩

/-- Provenance of rows through a `units` mapping. -/
theorem processUnits_rows (c t co : String) (lenient : Bool) :
    ∀ (us : List (String × Json)) (acc acc2 : ExtractAcc),
      processUnits c t co lenient acc us = Except.ok acc2 →
      ∀ row ∈ acc2.rows, row ∈ acc.rows ∨
        ∃ kvs, Json.obj kvs ∈ dpsOfUnits us ∧
          requiredFieldsPresent kvs = true ∧
          pyFloat ((lookupKey kvs "val").getD Json.null)
            = some row.value := by
  intro us
  induction us with
  | nil =>
    intro acc acc2 h row hr
    injection h with h2
    subst h2
    exact Or.inl hr
  | cons p rest ih =>
    obtain ⟨u, uv⟩ := p
    intro acc acc2 h row hr
    cases uv with
    | arr l =>
      rw [processUnits] at h
      cases hh : processDatapoints c t co u lenient acc l with
      | error e => rw [hh] at h; exact absurd h (by simp)
      | ok accm =>
        rw [hh] at h
        rcases ih accm acc2 h row hr with hmem | ⟨kvs, hk1, hk2, hk3⟩
        · rcases processDatapoints_rows c t co u lenient l acc accm hh
              row hmem with hmem2 | ⟨kvs, h1, h2, h3⟩
          · exact Or.inl hmem2
          · exact Or.inr ⟨kvs, by
              simp only [dpsOfUnits, List.mem_append]
              exact Or.inl h1, h2, h3⟩
        · exact Or.inr ⟨kvs, by
            simp only [dpsOfUnits, List.mem_append]
            exact Or.inr hk1, hk2, hk3⟩
    | null =>
      cases lenient with
      | false => exact absurd h (by simp [processUnits])
      | true =>
        have h2 : processUnits c t co true acc rest = Except.ok acc2 := h
        rcases ih acc acc2 h2 row hr with hmem | ⟨kvs, hk1, hk2, hk3⟩
        · exact Or.inl hmem
        · exact Or.inr ⟨kvs, hk1, hk2, hk3⟩
    | bool b =>
      cases lenient with
      | false => exact absurd h (by simp [processUnits])
      | true =>
        have h2 : processUnits c t co true acc rest = Except.ok acc2 := h
        rcases ih acc acc2 h2 row hr with hmem | ⟨kvs, hk1, hk2, hk3⟩
        · exact Or.inl hmem
        · exact Or.inr ⟨kvs, hk1, hk2, hk3⟩
    | pyint n =>
      cases lenient with
      | false => exact absurd h (by simp [processUnits])
      | true =>
        have h2 : processUnits c t co true acc rest = Except.ok acc2 := h
        rcases ih acc acc2 h2 row hr with hmem | ⟨kvs, hk1, hk2, hk3⟩
        · exact Or.inl hmem
        · exact Or.inr ⟨kvs, hk1, hk2, hk3⟩
    | pynum q =>
      cases lenient with
      | false => exact absurd h (by simp [processUnits])
      | true =>
        have h2 : processUnits c t co true acc rest = Except.ok acc2 := h
        rcases ih acc acc2 h2 row hr with hmem | ⟨kvs, hk1, hk2, hk3⟩
        · exact Or.inl hmem
        · exact Or.inr ⟨kvs, hk1, hk2, hk3⟩
    | str s =>
      cases lenient with
      | false => exact absurd h (by simp [processUnits])
      | true =>
        have h2 : processUnits c t co true acc rest = Except.ok acc2 := h
        rcases ih acc acc2 h2 row hr with hmem | ⟨kvs, hk1, hk2, hk3⟩
        · exact Or.inl hmem
        · exact Or.inr ⟨kvs, hk1, hk2, hk3⟩
    | obj kvs2 =>
      cases lenient with
      | false => exact absurd h (by simp [processUnits])
      | true =>
        have h2 : processUnits c t co true acc rest = Except.ok acc2 := h
        rcases ih acc acc2 h2 row hr with hmem | ⟨kvs, hk1, hk2, hk3⟩
        · exact Or.inl hmem
        · exact Or.inr ⟨kvs, hk1, hk2, hk3⟩

/-- Provenance of rows through a concept mapping. -/
theorem processConcepts_rows (c t : String) (lenient : Bool) :
    ∀ (cs : List (String × Json)) (acc acc2 : ExtractAcc),
      processConcepts c t lenient acc cs = Except.ok acc2 →
      ∀ row ∈ acc2.rows, row ∈ acc.rows ∨
        ∃ kvs, Json.obj kvs ∈ dpsOfConcepts cs ∧
          requiredFieldsPresent kvs = true ∧
          pyFloat ((lookupKey kvs "val").getD Json.null)
            = some row.value := by
  intro cs
  induction cs with
  | nil =>
    intro acc acc2 h row hr
    injection h with h2
    subst h2
    exact Or.inl hr
  | cons p rest ih =>
    obtain ⟨con, body⟩ := p
    intro acc acc2 h row hr
    cases body with
    | obj bodykvs =>
      rw [processConcepts] at h
      cases hu : lookupKey bodykvs "units" with
      | none =>
        rw [hu] at h
        cases lenient with
        | false => exact absurd h (by simp)
        | true =>
          have h2 : processConcepts c t true
              (registerConcept t con acc bodykvs) rest = Except.ok acc2 := h
          rcases ih _ acc2 h2 row hr with hmem | ⟨kvs, hk1, hk2, hk3⟩
          · exact Or.inl hmem
          · refine Or.inr ⟨kvs, ?_, hk2, hk3⟩
            simp only [dpsOfConcepts, hu, List.mem_append, List.nil_append]
            exact hk1
      | some uj =>
        cases uj with
        | obj us =>
          rw [hu] at h
          have h2 : (match processUnits c t con lenient
              (registerConcept t con acc bodykvs) us with
            | Except.error e => Except.error e
            | Except.ok acc3 => processConcepts c t lenient acc3 rest)
              = Except.ok acc2 := h
          cases hpu : processUnits c t con lenient
              (registerConcept t con acc bodykvs) us with
          | error e => rw [hpu] at h2; exact absurd h2 (by simp)
          | ok acc3 =>
            rw [hpu] at h2
            rcases ih acc3 acc2 h2 row hr with hmem | ⟨kvs, hk1, hk2, hk3⟩
            · rcases processUnits_rows c t con lenient us _ acc3 hpu
                  row hmem with hmem2 | ⟨kvs, h1, h2', h3⟩
              · exact Or.inl hmem2
              · refine Or.inr ⟨kvs, ?_, h2', h3⟩
                simp only [dpsOfConcepts, hu, List.mem_append]
                exact Or.inl h1
            · refine Or.inr ⟨kvs, ?_, hk2, hk3⟩
              simp only [dpsOfConcepts, hu, List.mem_append]
              exact Or.inr hk1
        | null =>
          rw [hu] at h
          cases lenient with
          | false => exact absurd h (by simp)
          | true =>
            have h2 : processConcepts c t true
                (registerConcept t con acc bodykvs) rest
                  = Except.ok acc2 := h
            rcases ih _ acc2 h2 row hr with hmem | ⟨kvs, hk1, hk2, hk3⟩
            · exact Or.inl hmem
            · refine Or.inr ⟨kvs, ?_, hk2, hk3⟩
              simp only [dpsOfConcepts, hu, List.mem_append, List.nil_append]
              exact hk1
        | bool b =>
          rw [hu] at h
          cases lenient with
          | false => exact absurd h (by simp)
          | true =>
            have h2 : processConcepts c t true
                (registerConcept t con acc bodykvs) rest
                  = Except.ok acc2 := h
            rcases ih _ acc2 h2 row hr with hmem | ⟨kvs, hk1, hk2, hk3⟩
            · exact Or.inl hmem
            · refine Or.inr ⟨kvs, ?_, hk2, hk3⟩
              simp only [dpsOfConcepts, hu, List.mem_append, List.nil_append]
              exact hk1
        | pyint n =>
          rw [hu] at h
          cases lenient with
          | false => exact absurd h (by simp)
          | true =>
            have h2 : processConcepts c t true
                (registerConcept t con acc bodykvs) rest
                  = Except.ok acc2 := h
            rcases ih _ acc2 h2 row hr with hmem | ⟨kvs, hk1, hk2, hk3⟩
            · exact Or.inl hmem
            · refine Or.inr ⟨kvs, ?_, hk2, hk3⟩
              simp only [dpsOfConcepts, hu, List.mem_append, List.nil_append]
              exact hk1
        | pynum q =>
          rw [hu] at h
          cases lenient with
          | false => exact absurd h (by simp)
          | true =>
            have h2 : processConcepts c t true
                (registerConcept t con acc bodykvs) rest
                  = Except.ok acc2 := h
            rcases ih _ acc2 h2 row hr with hmem | ⟨kvs, hk1, hk2, hk3⟩
            · exact Or.inl hmem
            · refine Or.inr ⟨kvs, ?_, hk2, hk3⟩
              simp only [dpsOfConcepts, hu, List.mem_append, List.nil_append]
              exact hk1
        | str s =>
          rw [hu] at h
          cases lenient with
          | false => exact absurd h (by simp)
          | true =>
            have h2 : processConcepts c t true
                (registerConcept t con acc bodykvs) rest
                  = Except.ok acc2 := h
            rcases ih _ acc2 h2 row hr with hmem | ⟨kvs, hk1, hk2, hk3⟩
            · exact Or.inl hmem
            · refine Or.inr ⟨kvs, ?_, hk2, hk3⟩
              simp only [dpsOfConcepts, hu, List.mem_append, List.nil_append]
              exact hk1
        | arr l =>
          rw [hu] at h
          cases lenient with
          | false => exact absurd h (by simp)
          | true =>
            have h2 : processConcepts c t true
                (registerConcept t con acc bodykvs) rest
                  = Except.ok acc2 := h
            rcases ih _ acc2 h2 row hr with hmem | ⟨kvs, hk1, hk2, hk3⟩
            · exact Or.inl hmem
            · refine Or.inr ⟨kvs, ?_, hk2, hk3⟩
              simp only [dpsOfConcepts, hu, List.mem_append, List.nil_append]
              exact hk1
    | null =>
      cases lenient with
      | false => exact absurd h (by simp [processConcepts])
      | true =>
        have h2 : processConcepts c t true acc rest = Except.ok acc2 := h
        rcases ih acc acc2 h2 row hr with hmem | ⟨kvs, hk1, hk2, hk3⟩
        · exact Or.inl hmem
        · exact Or.inr ⟨kvs, hk1, hk2, hk3⟩
    | bool b =>
      cases lenient with
      | false => exact absurd h (by simp [processConcepts])
      | true =>
        have h2 : processConcepts c t true acc rest = Except.ok acc2 := h
        rcases ih acc acc2 h2 row hr with hmem | ⟨kvs, hk1, hk2, hk3⟩
        · exact Or.inl hmem
        · exact Or.inr ⟨kvs, hk1, hk2, hk3⟩
    | pyint n =>
      cases lenient with
      | false => exact absurd h (by simp [processConcepts])
      | true =>
        have h2 : processConcepts c t true acc rest = Except.ok acc2 := h
        rcases ih acc acc2 h2 row hr with hmem | ⟨kvs, hk1, hk2, hk3⟩
        · exact Or.inl hmem
        · exact Or.inr ⟨kvs, hk1, hk2, hk3⟩
    | pynum q =>
      cases lenient with
      | false => exact absurd h (by simp [processConcepts])
      | true =>
        have h2 : processConcepts c t true acc rest = Except.ok acc2 := h
        rcases ih acc acc2 h2 row hr with hmem | ⟨kvs, hk1, hk2, hk3⟩
        · exact Or.inl hmem
        · exact Or.inr ⟨kvs, hk1, hk2, hk3⟩
    | str s =>
      cases lenient with
      | false => exact absurd h (by simp [processConcepts])
      | true =>
        have h2 : processConcepts c t true acc rest = Except.ok acc2 := h
        rcases ih acc acc2 h2 row hr with hmem | ⟨kvs, hk1, hk2, hk3⟩
        · exact Or.inl hmem
        · exact Or.inr ⟨kvs, hk1, hk2, hk3⟩
    | arr l =>
      cases lenient with
      | false => exact absurd h (by simp [processConcepts])
      | true =>
        have h2 : processConcepts c t true acc rest = Except.ok acc2 := h
        rcases ih acc acc2 h2 row hr with hmem | ⟨kvs, hk1, hk2, hk3⟩
        · exact Or.inl hmem
        · exact Or.inr ⟨kvs, hk1, hk2, hk3⟩

/-- Provenance of rows through the `facts` mapping. -/
theorem processTaxonomies_rows (c : String) (lenient : Bool) :
    ∀ (ts : List (String × Json)) (acc acc2 : ExtractAcc),
      processTaxonomies c lenient acc ts = Except.ok acc2 →
      ∀ row ∈ acc2.rows, row ∈ acc.rows ∨
        ∃ kvs, Json.obj kvs ∈ dpsOfTaxonomies ts ∧
          requiredFieldsPresent kvs = true ∧
          pyFloat ((lookupKey kvs "val").getD Json.null)
            = some row.value := by
  intro ts
  induction ts with
  | nil =>
    intro acc acc2 h row hr
    injection h with h2
    subst h2
    exact Or.inl hr
  | cons p rest ih =>
    obtain ⟨t, tv⟩ := p
    intro acc acc2 h row hr
    cases tv with
    | obj cs =>
      rw [processTaxonomies] at h
      cases hpc : processConcepts c t lenient acc cs with
      | error e => rw [hpc] at h; exact absurd h (by simp)
      | ok accm =>
        rw [hpc] at h
        rcases ih accm acc2 h row hr with hmem | ⟨kvs, hk1, hk2, hk3⟩
        · rcases processConcepts_rows c t lenient cs acc accm hpc row hmem
              with hmem2 | ⟨kvs, h1, h2, h3⟩
          · exact Or.inl hmem2
          · refine Or.inr ⟨kvs, ?_, h2, h3⟩
            simp only [dpsOfTaxonomies, List.mem_append]
            exact Or.inl h1
        · refine Or.inr ⟨kvs, ?_, hk2, hk3⟩
          simp only [dpsOfTaxonomies, List.mem_append]
          exact Or.inr hk1
    | null =>
      cases lenient with
      | false => exact absurd h (by simp [processTaxonomies])
      | true =>
        have h2 : processTaxonomies c true acc rest = Except.ok acc2 := h
        rcases ih acc acc2 h2 row hr with hmem | ⟨kvs, hk1, hk2, hk3⟩
        · exact Or.inl hmem
        · exact Or.inr ⟨kvs, hk1, hk2, hk3⟩
    | bool b =>
      cases lenient with
      | false => exact absurd h (by simp [processTaxonomies])
      | true =>
        have h2 : processTaxonomies c true acc rest = Except.ok acc2 := h
        rcases ih acc acc2 h2 row hr with hmem | ⟨kvs, hk1, hk2, hk3⟩
        · exact Or.inl hmem
        · exact Or.inr ⟨kvs, hk1, hk2, hk3⟩
    | pyint n =>
      cases lenient with
      | false => exact absurd h (by simp [processTaxonomies])
      | true =>
        have h2 : processTaxonomies c true acc rest = Except.ok acc2 := h
        rcases ih acc acc2 h2 row hr with hmem | ⟨kvs, hk1, hk2, hk3⟩
        · exact Or.inl hmem
        · exact Or.inr ⟨kvs, hk1, hk2, hk3⟩
    | pynum q =>
      cases lenient with
      | false => exact absurd h (by simp [processTaxonomies])
      | true =>
        have h2 : processTaxonomies c true acc rest = Except.ok acc2 := h
        rcases ih acc acc2 h2 row hr with hmem | ⟨kvs, hk1, hk2, hk3⟩
        · exact Or.inl hmem
        · exact Or.inr ⟨kvs, hk1, hk2, hk3⟩
    | str s =>
      cases lenient with
      | false => exact absurd h (by simp [processTaxonomies])
      | true =>
        have h2 : processTaxonomies c true acc rest = Except.ok acc2 := h
        rcases ih acc acc2 h2 row hr with hmem | ⟨kvs, hk1, hk2, hk3⟩
        · exact Or.inl hmem
        · exact Or.inr ⟨kvs, hk1, hk2, hk3⟩
    | arr l =>
      cases lenient with
      | false => exact absurd h (by simp [processTaxonomies])
      | true =>
        have h2 : processTaxonomies c true acc rest = Except.ok acc2 := h
        rcases ih acc acc2 h2 row hr with hmem | ⟨kvs, hk1, hk2, hk3⟩
        · exact Or.inl hmem
        · exact Or.inr ⟨kvs, hk1, hk2, hk3⟩

/-- Provenance of rows out of `extract_from_file`. -/
theorem extract_from_file_rows {data : List (String × Json)} {lenient : Bool}
    {rows : List FactRow}
    {concepts : List ((String × String) × (String × String))}
    {filings : Finset Filing}
    (h : extract_from_file data lenient = Except.ok (rows, concepts, filings)) :
    ∀ row ∈ rows, ∃ fobj kvs,
      lookupKey data "facts" = some (Json.obj fobj) ∧
      Json.obj kvs ∈ dpsOfTaxonomies fobj ∧
      requiredFieldsPresent kvs = true ∧
      pyFloat ((lookupKey kvs "val").getD Json.null) = some row.value := by
  intro row hr
  unfold extract_from_file at h
  cases hck : lookupKey data "cik" with
  | none => rw [hck] at h; exact absurd h (by simp)
  | some cikJ =>
    rw [hck] at h
    cases hf : lookupKey data "facts" with
    | none =>
      rw [hf] at h
      exact absurd (h : Except.error "KeyError: facts" = _) (by simp)
    | some fj =>
      rw [hf] at h
      cases fj with
      | obj fobj =>
        have h2 : (match processTaxonomies (zfill (pyFormat cikJ) 10) lenient
            ⟨[], [], ∅⟩ fobj with
          | Except.error e => Except.error e
          | Except.ok acc => Except.ok (acc.rows, acc.concepts, acc.filings))
            = Except.ok (rows, concepts, filings) := h
        cases hpt : processTaxonomies (zfill (pyFormat cikJ) 10) lenient
            ⟨[], [], ∅⟩ fobj with
        | error e => rw [hpt] at h2; exact absurd h2 (by simp)
        | ok acc =>
          rw [hpt] at h2
          injection h2 with h3
          have hrows : rows = acc.rows := congrArg Prod.fst h3 |>.symm
          rw [hrows] at hr
          rcases processTaxonomies_rows (zfill (pyFormat cikJ) 10) lenient
              fobj ⟨[], [], ∅⟩ acc hpt row hr with hmem | ⟨kvs, h1, h2', h3'⟩
          · exact absurd hmem (List.not_mem_nil row)
          · exact ⟨fobj, kvs, rfl, h1, h2', h3'⟩
      | null => exact absurd (h : Except.error _ = _) (by simp)
      | bool b => exact absurd (h : Except.error _ = _) (by simp)
      | pyint n => exact absurd (h : Except.error _ = _) (by simp)
      | pynum q => exact absurd (h : Except.error _ = _) (by simp)
      | str s => exact absurd (h : Except.error _ = _) (by simp)
      | arr l => exact absurd (h : Except.error _ = _) (by simp)

theorem all_eq_false_of_mem {α : Type} {p : α → Bool} {l : List α} {x : α}
    (hx : x ∈ l) (hpx : p x = false) : l.all p = false := by
  cases hall : l.all p with
  | false => rfl
  | true =>
    rw [List.all_eq_true.mp hall x hx] at hpx
    exact absurd hpx (by simp)

/-- `pyFloat` is the finite fragment of `pyFloatFull`: a rational result
means the full Python coercion succeeded with that finite value. -/
theorem pyFloat_eq_some {j : Json} {q : ℚ} (h : pyFloat j = some q) :
    pyFloatFull j = some (PyFloat.finite q) := by
  unfold pyFloat at h
  cases hf : pyFloatFull j with
  | none => rw [hf] at h; exact absurd h (by simp)
  | some pf =>
    rw [hf] at h
    cases pf with
    | finite q2 =>
      have h2 : some q2 = some q := h
      injection h2 with h3
      rw [h3]
    | inf => exact absurd (h : none = some q) (by simp)
    | neginf => exact absurd (h : none = some q) (by simp)
    | nan => exact absurd (h : none = some q) (by simp)

/-- A datapoint with all required fields present and `val = "inf"`, the
input on which the claim's finiteness conjunct fails. -/
def c4InfDp : List (String × Json) :=
  [("end", Json.str "2021-12-31"), ("val", Json.str "inf"),
   ("accn", Json.str "A1"), ("fy", Json.pyint 2021),
   ("fp", Json.str "FY"), ("form", Json.str "10-K"),
   ("filed", Json.str "2022-01-01")]

/-- **C4 (counterexample).** On the accepted datapoint `c4InfDp`, whose
required fields are all present, Python `float(dp["val"]) = float("inf")`
succeeds — no `ValueError`/`TypeError` is raised, so the `except` clause at
the coercion site does not fire in either mode — and the value it stores in
the emitted row is `inf`, which is not finite.  The same holds for the
spellings `Infinity` and `nan`.  This refutes the claim's conjunct that
every emitted fact row's value is a finite 64-bit float. -/
theorem claim_C4_counterexample :
    requiredFieldsPresent c4InfDp = true ∧
    pyFloatFull ((lookupKey c4InfDp "val").getD Json.null)
      = some PyFloat.inf ∧
    PyFloat.isFinite PyFloat.inf = false ∧
    pyFloatFull (Json.str "Infinity") = some PyFloat.inf ∧
    pyFloatFull (Json.str "nan") = some PyFloat.nan := by
  refine ⟨rfl, rfl, rfl, rfl, rfl⟩

/-- **C4 (amended).** For every accepted datapoint, extraction coerces
`val` with Python `float` and every emitted fact row's `value` is exactly
the coerced value; but the coercion does not guarantee finiteness:
`float` accepts the `inf`/`infinity`/`nan` spellings of `val` without
raising and the row emitted at the coercion site then carries a non-finite
value (see the counterexample; such rows lie outside the rational-valued
row model, so part one states that every modelled row's value is the
finite-valued coercion result).  A `val` on which `float` raises is a hard
error even in partial mode — it is never skipped silently. -/
theorem claim_C4_val_coercion_amended :
    (∀ (data : List (String × Json)) (lenient : Bool)
        (rows : List FactRow)
        (concepts : List ((String × String) × (String × String)))
        (filings : Finset Filing),
      extract_from_file data lenient = Except.ok (rows, concepts, filings) →
      ∀ row ∈ rows, ∃ fobj kvs,
        lookupKey data "facts" = some (Json.obj fobj) ∧
        Json.obj kvs ∈ dpsOfTaxonomies fobj ∧
        requiredFieldsPresent kvs = true ∧
        pyFloatFull ((lookupKey kvs "val").getD Json.null)
          = some (PyFloat.finite row.value)) ∧
    (∀ (data fobj kvs : List (String × Json)) (lenient : Bool),
      lookupKey data "facts" = some (Json.obj fobj) →
      Json.obj kvs ∈ dpsOfTaxonomies fobj →
      requiredFieldsPresent kvs = true →
      pyFloatFull ((lookupKey kvs "val").getD Json.null) = none →
      ∃ e, extract_from_file data lenient = Except.error e) := by
  constructor
  · intro data lenient rows concepts filings h row hr
    obtain ⟨fobj, kvs, h1, h2, h3, h4⟩ := extract_from_file_rows h row hr
    exact ⟨fobj, kvs, h1, h2, h3, pyFloat_eq_some h4⟩
  · intro data fobj kvs lenient hf hdp hreq hvalF
    have hval : pyFloat ((lookupKey kvs "val").getD Json.null) = none := by
      unfold pyFloat
      rw [hvalF]
    cases hck : lookupKey data "cik" with
    | none =>
      refine ⟨"KeyError: cik", ?_⟩
      unfold extract_from_file
      rw [hck]
    | some cikJ =>
      have hc : (lookupKey data "cik").isSome = true := by rw [hck]; rfl
      have hnotok : isOkB (extract_from_file data lenient) = false := by
        cases lenient with
        | true =>
          rw [extract_ok_lenient hc hf]
          apply all_eq_false_of_mem hdp
          simp only [lenientDpSafe, hreq, if_pos, hval, Option.isSome_none]
        | false =>
          rw [extract_ok_strict hc hf]
          cases hok : strictTaxonomiesOkB fobj with
          | false => rfl
          | true =>
            have := strictTaxonomiesOkB_dps hok _ hdp
            rw [strictDpSafe, hreq, hval] at this
            exact absurd this (by simp)
      cases hres : extract_from_file data lenient with
      | ok r => rw [hres] at hnotok; exact absurd hnotok (by simp [isOkB])
      | error e => exact ⟨e, rfl⟩

/-- The single datapoint of the C4 witness document: all required fields
present but a `val` on which Python `float` raises a `ValueError`. -/
def c4Dp : List (String × Json) :=
  [("end", Json.str "2021-12-31"), ("val", Json.str "abc"),
   ("accn", Json.str "A1"), ("fy", Json.pyint 2021),
   ("fp", Json.str "FY"), ("form", Json.str "10-K"),
   ("filed", Json.str "2022-01-01")]

/-- The `facts` mapping of the C4 witness document. -/
def c4Fobj : List (String × Json) :=
  [("t", Json.obj [("c", Json.obj
    [("units", Json.obj [("u", Json.arr [Json.obj c4Dp])])])])]

/-- The C4 witness document. -/
def c4Doc : List (String × Json) :=
  [("cik", Json.pyint 1), ("facts", Json.obj c4Fobj)]

/-- Witness for C4 (amended): `val = "abc"` fails hard even in partial
mode. -/
theorem claim_C4_witness :
    ∃ e, extract_from_file c4Doc true = Except.error e :=
  claim_C4_val_coercion_amended.2 c4Doc c4Fobj c4Dp true
    (by rfl)
    (by rw [show dpsOfTaxonomies c4Fobj = [Json.obj c4Dp] from rfl]
        exact List.mem_cons_self _ _)
    (by rfl) (by rfl)

/-! ### Value formatting for RAG sentences

Python renders `f"{val:,.0f}"` when `val == int(val)` and `f"{val:,.2f}"`
otherwise: thousands-grouped, two decimals rounded half-to-even.  All
arithmetic is done on the integer numerator/denominator so the kernel can
evaluate it. -/

/-- Two-digit left zero padding. -/
def pad2 (n : Nat) : String :=
  if n < 10 then "0" ++ toString n else toString n

/-- Three-digit left zero padding (inner thousands groups). -/
def pad3 (n : Nat) : String :=
  if n < 10 then "00" ++ toString n
  else if n < 100 then "0" ++ toString n
  else toString n

/-- Thousands grouping of a natural number, fuel-indexed (each step divides
by 1000, so `n` fuel always suffices). -/
def commaGroupAux : Nat → Nat → String
  | 0, n => toString n
  | fuel + 1, n =>
    if n < 1000 then toString n
    else commaGroupAux fuel (n / 1000) ++ "," ++ pad3 (n % 1000)

/-- Python thousands grouping `f"{n:,}"` of a natural number. -/
def commaGroup (n : Nat) : String := commaGroupAux n n

/-- Python `int(val)` for a rational: truncation toward zero. -/
def pyTrunc (q : ℚ) : Int := Int.tdiv q.num (q.den : Int)

/-- Round `q * 100` to the nearest integer, ties to even (the rounding of
`f"{q:,.2f}"`). -/
def round2HalfEven (q : ℚ) : Int :=
  let n := q.num * 100
  let d := (q.den : Int)
  let f := Int.fdiv n d
  let r := n - f * d
  if 2 * r < d then f
  else if d < 2 * r then f + 1
  else if f % 2 = 0 then f
  else f + 1

/-- Signed thousands grouping of an integer. -/
def pyThousands (n : Int) : String :=
  (if n < 0 then "-" else "") ++ commaGroup n.natAbs

/-- The `val_str` of `build_rag_sentences`:
`f"{val:,.0f}" if val == int(val) else f"{val:,.2f}"`.  (For a negative value
rounding to zero Python would keep the sign of the float; the rational model
has no negative zero.) -/
def formatVal (q : ℚ) : String :=
  if q = Rat.divInt (pyTrunc q) 1 then pyThousands (pyTrunc q)
  else
    let r := round2HalfEven q
    (if r < 0 then "-" else "")
      ++ commaGroup (r.natAbs / 100) ++ "." ++ pad2 (r.natAbs % 100)

/-! ### The sentence builder `build_rag_sentences` -/

/-- One row of the RAG index `sec_facts_index`. -/
structure RagRow where
  cik : String
  entity_name : String
  taxonomy : String
  concept : String
  label : String
  unit : String
  value : ℚ
  end_date : String
  start_date : String
  period_type : String
  period_key : String
  fy : Option Int
  fp : String
  form : String
  filed_date : String
  accession_number : String
  sentence : String
  deriving DecidableEq, Inhabited

/-- Python `concepts.get((taxonomy, concept), ("", ""))`. -/
def lookupConcept
    (concepts : List ((String × String) × (String × String)))
    (k : String × String) : Option (String × String) :=
  match concepts with
  | [] => none
  | (k', v) :: rest => if k' = k then some v else lookupConcept rest k

/-- The RAG row built from one preferred Tier-1 fact (the loop body of
`build_rag_sentences`). -/
def ragRowOf (entity_name : String)
    (concepts : List ((String × String) × (String × String)))
    (f : FactRow) : RagRow :=
  let label0 := ((lookupConcept concepts (f.taxonomy, f.concept)).getD
    ("", "")).1
  let label := if label0 = "" then f.concept else label0
  let val_str := formatVal f.value
  let period :=
    if f.period_type = "duration" ∧ f.start_date ≠ "" then
      "for period " ++ f.start_date ++ " to " ++ f.end_date
    else "as of " ++ f.end_date
  { cik := f.cik, entity_name := entity_name, taxonomy := f.taxonomy,
    concept := f.concept, label := label, unit := f.unit, value := f.value,
    end_date := f.end_date, start_date := f.start_date,
    period_type := f.period_type, period_key := f.period_key, fy := f.fy,
    fp := f.fp, form := f.form, filed_date := f.filed_date,
    accession_number := f.accession_number,
    sentence := entity_name ++ " reported " ++ label ++ " = " ++ val_str
      ++ " " ++ f.unit ++ " " ++ period ++ " (Form " ++ f.form ++ ", filed "
      ++ f.filed_date ++ ", accession " ++ f.accession_number ++ ")." }

/-- Python `build_rag_sentences`: one sentence row per preferred fact whose
concept is Tier-1, in fact order. -/
def build_rag_sentences (facts : List FactRow) (entity_name : String)
    (concepts : List ((String × String) × (String × String))) :
    List RagRow :=
  match facts with
  | [] => []
  | f :: rest =>
    if f.is_preferred = false then build_rag_sentences rest entity_name concepts
    else if f.concept ∉ TIER1_CONCEPTS then
      build_rag_sentences rest entity_name concepts
    else ragRowOf entity_name concepts f
      :: build_rag_sentences rest entity_name concepts

/-- The sentence builder is the filter-then-map of its loop body. -/
theorem build_rag_sentences_eq (entity_name : String)
    (concepts : List ((String × String) × (String × String))) :
    ∀ facts : List FactRow,
      build_rag_sentences facts entity_name concepts
        = (facts.filter fun f =>
            f.is_preferred && decide (f.concept ∈ TIER1_CONCEPTS)).map
              (ragRowOf entity_name concepts) := by
  intro facts
  induction facts with
  | nil => rfl
  | cons f rest ih =>
    cases hpref : f.is_preferred with
    | false => simp [build_rag_sentences, List.filter_cons, hpref, ih]
    | true =>
      by_cases htier : f.concept ∈ TIER1_CONCEPTS
      · simp [build_rag_sentences, List.filter_cons, hpref, htier, ih]
      · simp [build_rag_sentences, List.filter_cons, hpref, htier, ih]

/-! ### Claim C7: one sentence per preferred Tier-1 fact, template exact -/

/-- **C7.** For every ranked fact list, `build_rag_sentences` emits, for each
fact with `is_preferred = true` whose concept is in the fixed Tier-1 set,
exactly one sentence equal to the template
`"{entity_name} reported {label} = {value_str} {unit} {period_phrase}
(Form {form}, filed {filed_date}, accession {accession_number})."`, where
`label` falls back to the concept name when the concept's label is empty,
`value_str` is `formatVal` (thousands-grouped, no decimals when the value is
integral, two decimals otherwise), and `period_phrase` is
`"for period {start_date} to {end_date}"` when `period_type` is `duration`
and `start_date` is non-empty, else `"as of {end_date}"`. -/
theorem claim_C7_rag_sentence_template (facts : List FactRow)
    (entity_name : String)
    (concepts : List ((String × String) × (String × String))) :
    build_rag_sentences facts entity_name concepts
      = (facts.filter fun f =>
          f.is_preferred && decide (f.concept ∈ TIER1_CONCEPTS)).map
        (fun f =>
          let conceptLabel :=
            ((lookupConcept concepts (f.taxonomy, f.concept)).getD
              ("", "")).1
          let label :=
            if conceptLabel = "" then f.concept else conceptLabel
          let value_str := formatVal f.value
          let period_phrase :=
            if f.period_type = "duration" ∧ f.start_date ≠ "" then
              "for period " ++ f.start_date ++ " to " ++ f.end_date
            else "as of " ++ f.end_date
          { cik := f.cik, entity_name := entity_name,
            taxonomy := f.taxonomy, concept := f.concept, label := label,
            unit := f.unit, value := f.value, end_date := f.end_date,
            start_date := f.start_date, period_type := f.period_type,
            period_key := f.period_key, fy := f.fy, fp := f.fp,
            form := f.form, filed_date := f.filed_date,
            accession_number := f.accession_number,
            sentence := entity_name ++ " reported " ++ label ++ " = "
              ++ value_str ++ " " ++ f.unit ++ " " ++ period_phrase
              ++ " (Form " ++ f.form ++ ", filed " ++ f.filed_date
              ++ ", accession " ++ f.accession_number ++ ")." }) :=
  build_rag_sentences_eq entity_name concepts facts

/-! ### Claim C8: RAG rows exist iff preferred and Tier-1, identity copied -/

/-- The identity fields of a fact row that the RAG index copies. -/
def factIdentity (f : FactRow) :
    String × String × String × String × ℚ × String × String × String
      × String × Option Int × String × String × String × String :=
  (f.cik, f.taxonomy, f.concept, f.unit, f.value, f.start_date, f.end_date,
   f.period_type, f.period_key, f.fy, f.fp, f.form, f.filed_date,
   f.accession_number)

/-- The same identity fields read from a RAG row. -/
def ragIdentity (r : RagRow) :
    String × String × String × String × ℚ × String × String × String
      × String × Option Int × String × String × String × String :=
  (r.cik, r.taxonomy, r.concept, r.unit, r.value, r.start_date, r.end_date,
   r.period_type, r.period_key, r.fy, r.fp, r.form, r.filed_date,
   r.accession_number)

/-- **C8.** A RAG index row exists iff the corresponding fact row has
`is_preferred = true` and its concept belongs to the fixed Tier-1 set, and
every identity field copied into the RAG row equals the corresponding field
of the source fact: the rows of the RAG index are, in order and one-to-one,
the identity images of the preferred Tier-1 facts, so a join on identity
fields recovers the source fact exactly. -/
theorem claim_C8_rag_rows_iff_preferred_tier1 (facts : List FactRow)
    (entity_name : String)
    (concepts : List ((String × String) × (String × String))) :
    (build_rag_sentences facts entity_name concepts).map ragIdentity
      = (facts.filter fun f =>
          f.is_preferred && decide (f.concept ∈ TIER1_CONCEPTS)).map
            factIdentity := by
  rw [build_rag_sentences_eq, List.map_map]
  rfl

/-! ### Top-level validation (`validate_top_level`) -/

/-- Python `str.strip()`. -/
def stripStr (s : String) : String :=
  String.mk (((s.data.dropWhile isPySpace).reverse.dropWhile
    isPySpace).reverse)

/-- Python `s.isdigit()` for ASCII (non-empty, all digits). -/
def isDigitStr (s : String) : Bool :=
  !s.data.isEmpty && s.data.all Char.isDigit

/-- Python `validate_top_level(data, filepath)`: checks the required keys,
coerces a numeric-string `cik` to an int in place (returning the updated
document), and checks the shapes of `cik`, `entityName` and `facts`.
A Python `bool` passes `isinstance(_, int)`. -/
def validate_top_level (data : List (String × Json)) :
    Except String (List (String × Json)) :=
  if !(REQUIRED_TOP_KEYS.all fun k => (lookupKey data k).isSome) then
    Except.error "missing required top-level keys"
  else
    let step : Except String (List (String × Json)) :=
      match lookupKey data "cik" with
      | some (Json.str s) =>
        if isDigitStr (stripStr s) then
          Except.ok (insertKey data "cik"
            (Json.pyint (digitsToNat (stripStr s).data)))
        else Except.error "cik is a non-numeric string"
      | _ => Except.ok data
    match step with
    | Except.error e => Except.error e
    | Except.ok data2 =>
      match lookupKey data2 "cik" with
      | some (Json.pyint _) | some (Json.bool _) =>
        match lookupKey data2 "entityName" with
        | some (Json.str s) =>
          if stripStr s = "" then
            Except.error "entityName is empty or not a string"
          else
            match lookupKey data2 "facts" with
            | some (Json.obj _) => Except.ok data2
            | _ => Except.error "facts must be dict"
        | _ => Except.error "entityName is empty or not a string"
      | _ => Except.error "cik must be int"

/-! ### The driver loop of `run`

Each file is a `(name, content)` pair.  The per-file `try` block of `run`
becomes `tryProcessFile` (everything that can raise: load, repair,
validation, extraction — the subsequent accumulator updates cannot raise),
and `processFile` integrates its outcome into the run state. -/

/-- One row of `entity_master` (`lenient` is the source's `partial`
column, a Lean keyword). -/
structure EntityRow where
  cik : String
  entity_name : String
  last_seen_filing_date : String
  snapshot_date : String
  lenient : Bool
  deriving DecidableEq, Inhabited

/-- Everything the per-file `try` block of `run` produces. -/
structure FileProducts where
  facts : List FactRow
  concepts : List ((String × String) × (String × String))
  filings : Finset Filing
  entity : EntityRow
  rag : List RagRow
  lenient : Bool

/-- Python `max((f["filed_date"] for f in facts if f["filed_date"]),
default="")`. -/
def lastFiled (facts : List FactRow) : String :=
  (facts.filterMap fun f =>
    if f.filed_date ≠ "" then some f.filed_date else none).foldl
      (fun a b => if strLtB a.data b.data then b else a) ""

/-- The fallible part of one iteration of the `run` loop: strict load,
repair fallback (setting the partial flag), top-level validation, extraction,
ranking, and assembly of the entity row and RAG sentences. -/
def tryProcessFile (today : String) (content : String) :
    Except String FileProducts :=
  let loaded : Except String (Json × Bool) :=
    match json_loads content with
    | some d => Except.ok (d, false)
    | none =>
      match repair_truncated_json content with
      | none => Except.error "JSONDecodeError"
      | some d => Except.ok (d, true)
  match loaded with
  | Except.error e => Except.error e
  | Except.ok (d, lenient) =>
    match d with
    | Json.obj kvs =>
      match validate_top_level kvs with
      | Except.error e => Except.error e
      | Except.ok data2 =>
        match extract_from_file data2 lenient with
        | Except.error e => Except.error e
        | Except.ok (facts0, concepts, filings) =>
          let facts :=
            if facts0.isEmpty then facts0 else dedup_rank_facts facts0
          let cik_str :=
            zfill (pyFormat ((lookupKey data2 "cik").getD Json.null)) 10
          let entity_name :=
            jsonAsString ((lookupKey data2 "entityName").getD Json.null)
          let entity : EntityRow :=
            { cik := cik_str
              entity_name := entity_name
              last_seen_filing_date := lastFiled facts
              snapshot_date := today
              lenient := lenient }
          Except.ok
            { facts := facts
              concepts := concepts
              filings := filings
              entity := entity
              rag := build_rag_sentences facts entity_name concepts
              lenient := lenient }
    | _ => Except.error "document root is not a dict"

/-- The accumulators and counters of one `run`; `factBatches` records the
column batches appended to the streaming facts writer. -/
structure RunState where
  entity_rows : List EntityRow
  all_concepts : List ((String × String) × (String × String))
  all_filings : Finset Filing
  rag_rows : List RagRow
  factBatches : List (List FactRow)
  okCount : Nat
  repairedCount : Nat
  skippedCount : Nat
  errorCount : Nat
  errors : List (String × String)
  deriving Inhabited

/-- Minimum size of a non-skipped file (the model measures characters; the
test inputs are ASCII, where bytes and characters coincide). -/
def MIN_FILE_SIZE_BYTES : Nat := 100

/-- Python `all_concepts.update(concepts)` on the insertion-ordered dict. -/
def updateConcepts
    (base add : List ((String × String) × (String × String))) :
    List ((String × String) × (String × String)) :=
  add.foldl (fun acc kv => insertConcept acc kv.1 kv.2) base

/-- One iteration of the `run` loop: the size gate, the `try` block, and on
success the accumulator updates (entity row, concept and filing merge,
streamed fact batch, RAG rows, counters); on error only the error counter
and the error list change. -/
def processFile (today : String) (st : RunState) (file : String × String) :
    RunState :=
  if file.2.data.length < MIN_FILE_SIZE_BYTES then
    { st with skippedCount := st.skippedCount + 1 }
  else
    match tryProcessFile today file.2 with
    | Except.error e =>
      { st with
          errorCount := st.errorCount + 1
          errors := st.errors ++ [(file.1, e)] }
    | Except.ok p =>
      { st with
        entity_rows := st.entity_rows ++ [p.entity],
        all_concepts := updateConcepts st.all_concepts p.concepts,
        all_filings := st.all_filings ∪ p.filings,
        factBatches :=
          if p.facts.isEmpty then st.factBatches
          else st.factBatches ++ [p.facts],
        rag_rows := st.rag_rows ++ p.rag,
        okCount := if p.lenient then st.okCount else st.okCount + 1,
        repairedCount :=
          if p.lenient then st.repairedCount + 1 else st.repairedCount }

/-- The empty run state. -/
def initRunState : RunState := ⟨[], [], ∅, [], [], 0, 0, 0, 0, []⟩

/-- The sequential loop of `run` over the sorted input files. -/
def runFiles (today : String) (files : List (String × String)) : RunState :=
  files.foldl (processFile today) initRunState

/-! ### Claim C9: errors are isolated at file granularity -/

/-- **C9.** If processing one input file raises at any point (load, repair,
validation, or extraction), then none of that file's rows are added to any
output: no fact batch is written for it, and the entity rows, concepts
dictionary, filings set and RAG rows accumulated so far are unchanged by the
failing file (only the error counter and error list change). -/
theorem claim_C9_error_isolation (today : String) (st : RunState)
    (name content : String) (e : String)
    (hsize : MIN_FILE_SIZE_BYTES ≤ content.data.length)
    (herr : tryProcessFile today content = Except.error e) :
    (processFile today st (name, content)).entity_rows = st.entity_rows ∧
    (processFile today st (name, content)).all_concepts = st.all_concepts ∧
    (processFile today st (name, content)).all_filings = st.all_filings ∧
    (processFile today st (name, content)).rag_rows = st.rag_rows ∧
    (processFile today st (name, content)).factBatches = st.factBatches ∧
    processFile today st (name, content)
      = { st with
            errorCount := st.errorCount + 1
            errors := st.errors ++ [(name, e)] } := by
  unfold processFile
  rw [if_neg (by simp only [not_lt]; exact hsize), herr]
  exact ⟨rfl, rfl, rfl, rfl, rfl, rfl⟩

/-- Unparseable, unrepairable file content above the size gate. -/
def c9Content : String := String.mk (List.replicate 120 'x')

/-- Witness for C9: an unparseable oversized file leaves every accumulator
unchanged and only bumps the error bookkeeping. -/
theorem claim_C9_witness :
    (processFile "2026-02-03" initRunState
        ("CIK0000000001.json", c9Content)).entity_rows
      = initRunState.entity_rows ∧
    (processFile "2026-02-03" initRunState
        ("CIK0000000001.json", c9Content)).all_concepts
      = initRunState.all_concepts ∧
    (processFile "2026-02-03" initRunState
        ("CIK0000000001.json", c9Content)).all_filings
      = initRunState.all_filings ∧
    (processFile "2026-02-03" initRunState
        ("CIK0000000001.json", c9Content)).rag_rows
      = initRunState.rag_rows ∧
    (processFile "2026-02-03" initRunState
        ("CIK0000000001.json", c9Content)).factBatches
      = initRunState.factBatches ∧
    processFile "2026-02-03" initRunState ("CIK0000000001.json", c9Content)
      = { initRunState with
            errorCount := initRunState.errorCount + 1
            errors := initRunState.errors
              ++ [("CIK0000000001.json", "JSONDecodeError")] } :=
  claim_C9_error_isolation "2026-02-03" initRunState "CIK0000000001.json"
    c9Content "JSONDecodeError" (by decide) (by rfl)
